import Mathlib

/-!
# Verification of the inversearch core (flexsearch repository)

Shallow embedding of the inverted-index search engine found in
`services/inversearch/src`, together with proofs settling the frozen claims
about its specification.  Rust `HashMap`s are modelled as association lists;
where a function's observable output is independent of hash-map iteration
order (e.g. because it sorts its result) this is noted at the definition.
Machine integers are modelled as `Nat` with explicit wrap-around where the
source relies on it.
-/

namespace Inversearch

/-! ## Set algebra: `intersect` from `intersect/core.rs`

The Rust function builds a `HashMap` counting, for every DocId, its total
number of occurrences across all input sub-arrays (`seen` counts occurrences
inside each sub-array with multiplicity and those counts are summed into
`common_ids`), keeps the ids whose total count reaches `arrays.len()`, and
sorts the result with `sort_unstable`.  Because the output is sorted and the
key set of the hash map is exactly the set of ids occurring in the inputs,
the function is deterministic and is modelled by counting occurrences in the
flattened input. -/

/-- Total number of occurrences of `id` across all sub-arrays, with
multiplicity (the sum over the per-array `seen` counters in the source). -/
def totalCount (arrays : List (List Nat)) (id : Nat) : Nat :=
  (arrays.map (fun a => a.count id)).sum

/-- Insertion sort used to model `sort_unstable` on the (duplicate-free) key
list; ascending order makes the result canonical. -/
def insertSorted (x : Nat) : List Nat → List Nat
  | [] => [x]
  | y :: ys => if x ≤ y then x :: y :: ys else y :: insertSorted x ys

def sortNat : List Nat → List Nat
  | [] => []
  | x :: xs => insertSorted x (sortNat xs)

/-- `intersect` from `intersect/core.rs` (lines 9-55).  Empty input gives an
empty result; a single sub-array is returned unchanged; otherwise the ids
whose total occurrence count reaches the number of sub-arrays are collected
and sorted. -/
def coreIntersect (arrays : List (List Nat)) : List (List Nat) :=
  if arrays.isEmpty then []
  else if arrays.length == 1 then arrays
  else
    let threshold := arrays.length
    let keys := arrays.flatten.dedup
    let result := keys.filter (fun id => threshold ≤ totalCount arrays id)
    [sortNat result]

/-! ## Binary64 arithmetic model

The last branch of `get_score` in `index/builder.rs` is computed in `f64`:
`((resolution - 1) as f64 / total_length as f64 * (i + offset) as f64 + 1.0) as usize`.
Modelled from IEEE-754 binary64 (the semantics Rust guarantees for `f64`):
a nonnegative finite double is a dyadic rational `m · 2^e`, and every
operation rounds its exact result to the nearest number with a 53-bit
significand, ties to even.  The model leaves the exponent unbounded, which
agrees with binary64 wherever neither overflow nor subnormals are reached;
every value arising here from `usize`-ranged inputs is a normal-range
double (magnitudes lie between `2^-64` and `2^129`), so on those inputs the
model is exact.  All arithmetic is on `Nat`/`Int`, so the definitions
evaluate in the kernel. -/

/-- Structural `⌊log2 n⌋` (fuel-indexed; `Nat.log2` itself is well-founded
recursion and does not reduce in the kernel). -/
def log2Aux : Nat → Nat → Nat
  | 0, _ => 0
  | fuel + 1, n => if n ≤ 1 then 0 else log2Aux fuel (n / 2) + 1

/-- `⌊log2 n⌋` for `n ≥ 1` (0 at 0); `n` itself is enough fuel. -/
def log2floor (n : Nat) : Nat := log2Aux n n

/-- Decides `2^c ≤ n / d` for an integer exponent `c`, by clearing
denominators. -/
def qGePow2 (n d : Nat) (c : Int) : Bool :=
  if 0 ≤ c then d * 2 ^ c.toNat ≤ n else d ≤ n * 2 ^ (-c).toNat

/-- Round the positive rational `n / d` to the nearest 53-bit-significand
dyadic `m · 2^e`, ties to even: `E = ⌊log2 (n/d)⌋` is located from the
`log2floor` difference (the true value is that candidate or one less),
the scaled significand `N / D = (n/d) / 2^(E-52)` lies in `[2^52, 2^53)`,
and its quotient is rounded to nearest-even via the remainder. -/
def roundPos (n d : Nat) : Nat × Int :=
  if n = 0 then (0, 0)
  else
    let k : Int := (log2floor n : Int) - (log2floor d : Int)
    let E : Int := if qGePow2 n d k then k else k - 1
    let e : Int := E - 52
    let N : Nat := if 0 ≤ e then n else n * 2 ^ (-e).toNat
    let D : Nat := if 0 ≤ e then d * 2 ^ e.toNat else d
    let q := N / D
    let r := N % D
    let m := if 2 * r < D then q
      else if D < 2 * r then q + 1
      else if q % 2 = 0 then q else q + 1
    (m, e)

/-- A nonnegative finite binary64 value: the dyadic rational `m · 2^e`. -/
structure F64 where
  m : Nat
  e : Int

/-- `n as f64` for `n : usize` (round to nearest, exact below `2^53`). -/
def natToF64 (n : Nat) : F64 :=
  let p := roundPos n 1
  ⟨p.1, p.2⟩

/-- Correctly rounded division: `round(a/b) = round(a.m/b.m) · 2^(a.e-b.e)`
(rounding commutes with scaling by powers of two).  Division by zero is
never reached here (`get_score` divides by `total_length ≥ 3`). -/
def fdiv (a b : F64) : F64 :=
  let p := roundPos a.m b.m
  ⟨p.1, p.2 + a.e - b.e⟩

/-- Correctly rounded multiplication. -/
def fmul (a b : F64) : F64 :=
  let p := roundPos (a.m * b.m) 1
  ⟨p.1, p.2 + a.e + b.e⟩

/-- Correctly rounded addition: align to the smaller exponent, add the
integer significands, round. -/
def fadd (a b : F64) : F64 :=
  let emin := min a.e b.e
  let n := a.m * 2 ^ (a.e - emin).toNat + b.m * 2 ^ (b.e - emin).toNat
  let p := roundPos n 1
  ⟨p.1, p.2 + emin⟩

/-- `f as usize` for a nonnegative finite `f`: truncation toward zero,
i.e. the floor.  (Rust saturates at `usize::MAX`; `usize` is modelled as
unbounded `Nat` throughout, so no upper clamp.) -/
def f64ToUsize (f : F64) : Nat :=
  if 0 ≤ f.e then f.m * 2 ^ f.e.toNat else f.m / 2 ^ (-f.e).toNat

/-! ## Resolution bucket: `get_score` from `index/builder.rs` (lines 225-246)

The first two branches are exact integer arithmetic; the last is the `f64`
evaluation above, truncated.  The `f64` result does not always equal the
exact value of the source comment's formula
`((resolution - 1) / total_length * (i + offset) + 1) | 0`: at
`resolution = 5`, `total_length = 196`, `i + offset = 147` the product
rounds to `3 - 2^-51`, the sum to `4 - 2^-51 = 3.9999999999999996`, and the
cast truncates to `3`, while the exact floor is `4`. -/

def get_score (resolution length i : Nat) (term_length x : Option Nat) : Nat :=
  if i = 0 ∨ resolution ≤ 1 then 0
  else
    let total_length := length + term_length.getD 0
    let offset := x.getD 0
    if total_length ≤ resolution then i + offset
    else
      f64ToUsize (fadd (fmul (fdiv (natToF64 (resolution - 1)) (natToF64 total_length))
        (natToF64 (i + offset))) (natToF64 1))

/-- The resolution-bucket formula as the claim words it, in exact
arithmetic: `0` when `i = 0` or `resolution ≤ 1`; `i + offset` when
`total_length ≤ resolution`; otherwise
`⌊(resolution-1)/total_length · (i+offset) + 1⌋` exactly (here as the `Nat`
division `(resolution-1)·(i+offset)/total_length + 1`).  Stated from the
claim's words for comparison with the source's `get_score`, whose last
branch is evaluated in `f64` instead. -/
def get_score_claimed (resolution length i : Nat) (term_length x : Option Nat) : Nat :=
  if i = 0 ∨ resolution ≤ 1 then 0
  else
    let total_length := length + term_length.getD 0
    let offset := x.getD 0
    if total_length ≤ resolution then i + offset
    else (resolution - 1) * (i + offset) / total_length + 1

/-! ## Encoder: `encoder/mod.rs`, `encoder/validator.rs`, options from
`type/mod.rs`

Rust `HashMap`/`HashSet`-valued configuration tables are modelled as
association lists / lists (iteration order is noted where it matters).  The
`prepare`/`finalize` hooks are `Option<String>` in `EncoderOptions` and are
never turned into transformers by `Encoder::new` (it always stores `None`),
so they are modelled as absent. -/

/-- `EncoderOptions` from `type/mod.rs` (lines 114-152). -/
structure EncoderOptions where
  rtl : Option Bool
  dedupe : Option Bool
  split : Option String
  numeric : Option Bool
  normalize : Option Bool
  filter : Option (List String)
  matcher : Option (List (String × String))
  mapper : Option (List (Char × Char))
  stemmer : Option (List (String × String))
  replacer : Option (List (String × String))
  minlength : Option Nat
  maxlength : Option Nat
  cache : Option Bool

/-- `EncoderOptions::default()` from `type/mod.rs` (lines 132-152). -/
def EncoderOptions.defaults : EncoderOptions :=
  { rtl := some false, dedupe := some true, split := none, numeric := some true
    normalize := some true, filter := none, matcher := none, mapper := none
    stemmer := none, replacer := none, minlength := some 1, maxlength := some 1024
    cache := some true }

/-- Byte length of a string under UTF-8, as Rust's `str::len()`. -/
def byteLen (s : String) : Nat := (s.data.map Char.utf8Size).sum

/-- Error kinds of `EncoderError` (`error.rs`) relevant to construction. -/
inductive EncErr where
  | invalidRegex (msg : String)
  | encoding (msg : String)
deriving DecidableEq, Repr

/-- `EncoderValidator::validate` from `encoder/validator.rs` (lines 9-63).
Checks only sizes and lengths; it never compiles or parses a regex pattern
(a replacer pattern is checked only for its byte length). -/
def EncoderValidator.validate (o : EncoderOptions) : Except EncErr Unit := do
  match o.minlength, o.maxlength with
  | some mn, some mx =>
    if mn > mx then
      throw (.invalidRegex "minlength cannot be greater than maxlength")
    else if mn = 0 then
      throw (.invalidRegex "minlength must be greater than 0")
    else pure ()
  | _, _ => pure ()
  match o.filter with
  | some f =>
    if f.length > 10000 then throw (.encoding "filter set too large (max 10,000 entries)")
    else pure ()
  | none => pure ()
  match o.mapper with
  | some m =>
    if m.length > 1000 then throw (.encoding "mapper too large (max 1,000 mappings)")
    else pure ()
  | none => pure ()
  match o.matcher with
  | some m =>
    if m.length > 5000 then throw (.encoding "matcher too large (max 5,000 patterns)")
    else pure ()
  | none => pure ()
  match o.replacer with
  | some r => do
    if r.length > 100 then throw (.encoding "too many replacer patterns (max 100)")
    else pure ()
    for p in r do
      if byteLen p.1 > 1000 then
        throw (.invalidRegex "replacer pattern too long (max 1000 chars)")
      else pure ()
  | none => pure ()
  match o.stemmer with
  | some s =>
    if s.length > 1000 then throw (.encoding "stemmer too large (max 1,000 rules)")
    else pure ()
  | none => pure ()

/-- Modelled from the `regex` crate (an external dependency, not part of this
repository): a compiled regular expression, represented by its pattern. -/
structure MRegex where
  pattern : String
deriving DecidableEq, Repr

/-- Modelled from the `regex` crate: helper for `regexValid`, scanning for
balanced group parentheses while skipping escaped characters. -/
def parenScan : List Char → Nat → Bool
  | [], depth => depth = 0
  | '\\' :: rest, depth =>
    match rest with
    | [] => false
    | _ :: rest' => parenScan rest' depth
  | '(' :: rest, depth => parenScan rest (depth + 1)
  | ')' :: rest, depth =>
    match depth with
    | 0 => false
    | d + 1 => parenScan rest d
  | _ :: rest, depth => parenScan rest depth

/-- Modelled from the `regex` crate: syntactic validity of a pattern.  Only
the fragment needed here is modelled: a pattern is invalid when its group
parentheses are unbalanced or it ends in a bare backslash, matching
`Regex::new`'s rejection of e.g. `"("` ("unclosed group"). -/
def regexValid (p : String) : Bool := parenScan p.data 0

/-- Modelled from the `regex` crate: `Regex::new`, failing on invalid
patterns. -/
def regexNew (p : String) : Option MRegex :=
  if regexValid p then some ⟨p⟩ else none

/-- `SplitOption` from `encoder/mod.rs` (lines 51-56); the `Regex` variant
only ever holds the `WHITESPACE` class `[^\p{L}\p{N}]+`. -/
inductive SplitOption where
  | str (s : String)
  | whitespace
  | bool (b : Bool)
deriving DecidableEq, Repr

/-- `Cache` from `encoder/mod.rs` (lines 64-71).  The two LRU caches
(`lru::LruCache`, an external crate) are modelled as most-recent-first
association lists; `LruCache::unbounded()` never evicts, so `put` only
inserts or updates. -/
structure EncCache where
  size : Nat
  cache_enc : List (String × List String)
  cache_term : List (String × String)
  cache_enc_length : Nat
  cache_term_length : Nat
deriving DecidableEq, Repr

/-- Modelled from the `lru` crate: `LruCache::peek` (no reordering). -/
def cachePeek {α : Type} (c : List (String × α)) (k : String) : Option α :=
  match c with
  | [] => none
  | (k', v) :: rest => if k' = k then some v else cachePeek rest k

/-- Modelled from the `lru` crate: `LruCache::put` on an unbounded cache —
insert or update the entry and move it to the most-recent end; nothing is
ever evicted. -/
def cachePut {α : Type} (c : List (String × α)) (k : String) (v : α) :
    List (String × α) :=
  (k, v) :: c.filter (fun p => p.1 ≠ k)

/-- `Encoder` from `encoder/mod.rs` (lines 26-43).  `normalize` only ever
holds the `Bool` variant (`Encoder::new` lines 96-100), `prepare`/`finalize`
are always `None`, and `filter` only the `Set` variant, so those are
specialised accordingly. -/
structure Encoder where
  normalize : Bool
  split : SplitOption
  numeric : Bool
  filter : Option (List String)
  dedupe : Bool
  matcher : Option (List (String × String))
  mapper : Option (List (Char × Char))
  stemmer : Option (List (String × String))
  replacer : Option (List (MRegex × String))
  minlength : Nat
  maxlength : Nat
  rtl : Bool
  cache : Option EncCache
deriving DecidableEq, Repr

/-- `Encoder::new` from `encoder/mod.rs` (lines 74-189): validate, then build
the encoder.  An uncompilable replacer pattern is *not* an error: the source
catches the failure with `unwrap_or_else`, prints a message and substitutes
`Regex::new("")` (lines 124-136).  The caches are created with
`LruCache::unbounded()` (lines 142-152) while recording `size: 200_000`. -/
def Encoder.new (o : EncoderOptions) : Except EncErr Encoder := do
  EncoderValidator.validate o
  let normalize := match o.normalize with
    | some b => b
    | none => true
  let split := match o.split with
    | some s => SplitOption.str s
    | none => SplitOption.whitespace
  let numeric := o.numeric.getD true
  let filter := o.filter
  let dedupe := o.dedupe.getD true
  let replacer := o.replacer.map (fun l => l.map (fun pr =>
    (match regexNew pr.1 with
     | some r => r
     | none => (⟨""⟩ : MRegex), pr.2)))
  let minlength := o.minlength.getD 1
  let maxlength := o.maxlength.getD 1024
  let rtl := o.rtl.getD false
  let cache := if o.cache.getD true then
      some { size := 200000, cache_enc := [], cache_term := []
             cache_enc_length := 128, cache_term_length := 128 }
    else none
  pure { normalize := normalize, split := split, numeric := numeric
         filter := filter, dedupe := dedupe, matcher := o.matcher
         mapper := o.mapper, stemmer := o.stemmer, replacer := replacer
         minlength := minlength, maxlength := maxlength, rtl := rtl
         cache := cache }

/-! ### Encoding pipeline (`Encoder::encode`, lines 191-335) -/

/-- Modelled from the `unicode-normalization` crate (external): NFKD
decomposition, restricted to the character set this development evaluates —
ASCII and CJK ideographs — on which NFKD is the identity. -/
def nfkdChar (c : Char) : List Char := [c]

/-- Combining-mark range `U+0300`–`U+036F` stripped by the `NORMALIZE`
regex (`encoder/mod.rs` line 16). -/
def isCombiningMark (c : Char) : Bool :=
  0x300 ≤ c.toNat && c.toNat ≤ 0x36F

/-- Modelled from Rust `str::to_lowercase` restricted to the evaluated
charset (ASCII letters; identity on CJK). -/
def lowerChar (c : Char) : Char :=
  if 'A' ≤ c && c ≤ 'Z' then Char.ofNat (c.toNat + 32) else c

/-- `Encoder::apply_normalize` (lines 337-347); the `Function` variant is
never constructed. -/
def applyNormalize (e : Encoder) (s : String) : String :=
  if e.normalize then
    ⟨((s.data.flatMap nfkdChar).filter (fun c => !isCombiningMark c)).map lowerChar⟩
  else ⟨s.data.map lowerChar⟩

/-- Modelled from the `regex` crate's `\d` on the evaluated charset: ASCII
decimal digits. -/
def isD (c : Char) : Bool := c.isDigit

/-- `NUMERIC_SPLIT_PREV_CHAR.replace_all(s, "$1 $2")` for `(\D)(\d{3})`:
leftmost non-overlapping matches, resuming after each match. -/
def replacePrev : List Char → List Char
  | c :: d1 :: d2 :: d3 :: rest =>
    if !isD c && isD d1 && isD d2 && isD d3 then
      c :: ' ' :: d1 :: d2 :: d3 :: replacePrev rest
    else c :: replacePrev (d1 :: d2 :: d3 :: rest)
  | l => l

/-- `NUMERIC_SPLIT_NEXT_CHAR.replace_all(s, "$1 $2")` for `(\d{3})(\D)`. -/
def replaceNext : List Char → List Char
  | d1 :: d2 :: d3 :: c :: rest =>
    if isD d1 && isD d2 && isD d3 && !isD c then
      d1 :: d2 :: d3 :: ' ' :: c :: replaceNext rest
    else d1 :: replaceNext (d2 :: d3 :: c :: rest)
  | l => l

/-- `NUMERIC_SPLIT_LENGTH.replace_all(s, "$1 ")` for `(\d{3})`. -/
def replaceLen : List Char → List Char
  | d1 :: d2 :: d3 :: rest =>
    if isD d1 && isD d2 && isD d3 then
      d1 :: d2 :: d3 :: ' ' :: replaceLen rest
    else d1 :: replaceLen (d2 :: d3 :: rest)
  | l => l

/-- The numeric-split block of `encode` (lines 210-218). -/
def numericSplit (s : String) : String :=
  ⟨replaceLen (replaceNext (replacePrev s.data))⟩

/-- Modelled from the `regex` crate's `\p{L}\p{N}` classes restricted to the
evaluated charset: ASCII letters and digits, and CJK ideographs. -/
def isWordChar (c : Char) : Bool :=
  c.isAlpha || c.isDigit || (0x4E00 ≤ c.toNat && c.toNat ≤ 0x9FFF)

/-- `Regex::split` for the `WHITESPACE` class `[^\p{L}\p{N}]+`: fields
between maximal separator runs, with empty fields at the boundaries exactly
as the `regex` crate produces them. -/
def splitWs : List Char → List (List Char)
  | [] => [[]]
  | c :: cs =>
    let fs := splitWs cs
    if isWordChar c then
      match fs with
      | [] => [[c]]
      | f :: fs' => (c :: f) :: fs'
    else
      match cs with
      | [] => [] :: fs
      | c2 :: _ => if isWordChar c2 then [] :: fs else fs

/-- Rust `str::split(sep)` for a non-empty literal separator: split at each
non-overlapping occurrence (fuel-indexed scan; the fuel bounds the character
count and is never exhausted). -/
def splitLiteralGo (sep : List Char) : Nat → List Char → List Char → List (List Char)
  | _, [], acc => [acc.reverse]
  | 0, cs, acc => [acc.reverse ++ cs]
  | fuel + 1, c :: cs, acc =>
    if sep.isPrefixOf (c :: cs) then
      acc.reverse :: splitLiteralGo sep fuel ((c :: cs).drop sep.length) []
    else splitLiteralGo sep fuel cs (c :: acc)

/-- `Encoder::apply_split` (lines 349-361) literal-separator case. -/
def splitLiteral (sep : String) (s : String) : List String :=
  (splitLiteralGo sep.data (s.data.length + 1) s.data []).map (fun cs => ⟨cs⟩)

def applySplit (e : Encoder) (s : String) : List String :=
  match e.split with
  | .str sep => if sep = "" then [s] else splitLiteral sep s
  | .whitespace => (splitWs s.data).map (fun cs => ⟨cs⟩)
  | .bool false => [s]
  | .bool true => (splitWs s.data).map (fun cs => ⟨cs⟩)

/-- `Encoder::has_transformations` (lines 363-369). -/
def hasTransformations (e : Encoder) : Bool :=
  e.filter.isSome || e.mapper.isSome || e.matcher.isSome
    || e.stemmer.isSome || e.replacer.isSome

/-- `Encoder::apply_filter` (lines 371-376), `Set` variant: keep the word iff
it is not in the stopword set. -/
def applyFilter (set : List String) (word : String) : Bool :=
  !set.contains word

/-- One pass of the stemmer rule list (the inner `for` of
`apply_stemmer`, lines 378-393): the first rule whose key is a proper suffix
of the word fires and the loop breaks. -/
def stemmerPass (word : String) : List (String × String) → String
  | [] => word
  | (key, value) :: rest =>
    if byteLen word > byteLen key && word.endsWith key then
      ⟨(word.data.take (word.data.length - key.data.length))⟩ ++ value
    else stemmerPass word rest

/-- `Encoder::apply_stemmer` (lines 378-393): iterate passes while the word
changes and stays longer than 2 bytes.  The source's `while` loop has no
iteration bound and can diverge on cyclic rule sets; the model bounds it by
a fuel of 1000 iterations (never reached in this development — no claim
configures a stemmer). -/
def applyStemmerFuel (stemmer : List (String × String)) : Nat → String → String
  | 0, word => word
  | fuel + 1, word =>
    if byteLen word > 2 then
      let word' := stemmerPass word stemmer
      if word' = word then word else applyStemmerFuel stemmer fuel word'
    else word

def applyStemmer (word : String) (stemmer : List (String × String)) : String :=
  applyStemmerFuel stemmer 1000 word

/-- `Encoder::apply_mapper` (lines 395-415): per-character replacement with
run collapsing when `dedupe` is set.  `prev` holds the last character kept. -/
def applyMapperGo (mapper : Option (List (Char × Char))) (dedupe : Bool) :
    List Char → Option Char → List Char
  | [], _ => []
  | c :: rest, prev =>
    if some c ≠ prev || !dedupe then
      match mapper.bind (fun m => (m.find? (fun p => p.1 = c)).map (·.2)) with
      | some mapped =>
        if some mapped ≠ prev || !dedupe then
          mapped :: applyMapperGo mapper dedupe rest (some mapped)
        else applyMapperGo mapper dedupe rest prev
      | none => c :: applyMapperGo mapper dedupe rest (some c)
    else applyMapperGo mapper dedupe rest prev

def applyMapper (e : Encoder) (word : String) : String :=
  ⟨applyMapperGo e.mapper e.dedupe word.data none⟩

/-- Rust `str::replace(key, value)`: replace all non-overlapping leftmost
occurrences; an empty key inserts `value` around every character. -/
def strReplaceGo (key value : List Char) : List Char → Nat → List Char
  | cs, 0 => cs
  | [], _ => []
  | c :: cs, fuel + 1 =>
    if key.isPrefixOf (c :: cs) then
      value ++ strReplaceGo key value ((c :: cs).drop key.length) fuel
    else c :: strReplaceGo key value cs fuel

def strReplace (s key value : String) : String :=
  if key = "" then
    ⟨value.data ++ s.data.flatMap (fun c => c :: value.data)⟩
  else ⟨strReplaceGo key.data value.data s.data (s.data.length + 1)⟩

/-- `Encoder::apply_matcher` (lines 417-425): apply every literal
replacement in table order (`HashMap` iteration modelled by list order). -/
def applyMatcher (word : String) (matcher : List (String × String)) : String :=
  matcher.foldl (fun w kv => strReplace w kv.1 kv.2) word

/-- Modelled from the `regex` crate: `Regex::replace_all`, restricted to the
fragment evaluated here.  A pattern without metacharacters is a literal
replacement; the empty pattern (the fallback compiled for invalid patterns)
inserts the replacement around every character like the literal `""`; other
patterns are outside the modelled fragment and leave the word unchanged
(never evaluated in this development). -/
def regexIsLiteral (p : String) : Bool :=
  p.data.all (fun c => !(c ∈ ['(', ')', '[', ']', '{', '}', '.', '*', '+',
    '?', '|', '^', '$', '\\']))

def regexReplaceAll (r : MRegex) (replacement : String) (s : String) : String :=
  if regexIsLiteral r.pattern then strReplace s r.pattern replacement else s

/-- `Encoder::apply_replacer` (lines 427-435). -/
def applyReplacer (word : String) (replacer : List (MRegex × String)) : String :=
  replacer.foldl (fun w rr => regexReplaceAll rr.1 rr.2 w) word

/-- Loop state of the token loop of `encode` (lines 224-318). -/
structure EncLoop where
  final_terms : List String
  dupes : List String
  last_term : String
  last_term_enc : String
  cache_term : List (String × String)
deriving DecidableEq, Repr

/-- One iteration of the token loop of `encode` (lines 229-318) for `word`;
`skip` is the fast path when no transformation is configured. -/
def encodeWord (e : Encoder) (skip : Bool) (st : EncLoop) (word : String) : EncLoop :=
  let base := word
  if word = "" then st
  else if byteLen word < e.minlength || byteLen word > e.maxlength then st
  else
    let (cont, st) :=
      if e.dedupe then
        if st.dupes.contains word then (true, st)
        else (false, { st with dupes := word :: st.dupes })
      else
        if st.last_term = word then (true, st)
        else (false, { st with last_term := word })
    if cont then st
    else if skip then { st with final_terms := st.final_terms ++ [word] }
    else
      let filteredOut := match e.filter with
        | some set => !applyFilter set word
        | none => false
      if filteredOut then st
      else
        let cacheHit : Option (Option String) := match e.cache with
          | some c =>
            if byteLen base ≤ c.cache_term_length then
              match cachePeek st.cache_term base with
              | some tmp => some (if tmp = "" then none else some tmp)
              | none => none
            else none
          | none => none
        match cacheHit with
        | some (some tmp) => { st with final_terms := st.final_terms ++ [tmp] }
        | some none => st
        | none =>
          let word := match e.stemmer with
            | some stem => applyStemmer word stem
            | none => word
          let word := if e.mapper.isSome || (e.dedupe && byteLen word > 1) then
              applyMapper e word
            else word
          let word := match e.matcher with
            | some m => applyMatcher word m
            | none => word
          let word := match e.replacer with
            | some r => applyReplacer word r
            | none => word
          let st := match e.cache with
            | some c =>
              if byteLen base ≤ c.cache_term_length then
                { st with cache_term := cachePut st.cache_term base word }
              else st
            | none => st
          if word ≠ "" then
            if word ≠ base then
              if e.dedupe then
                if st.dupes.contains word then st
                else { st with dupes := word :: st.dupes,
                               final_terms := st.final_terms ++ [word] }
              else
                if st.last_term_enc = word then st
                else { st with last_term_enc := word,
                               final_terms := st.final_terms ++ [word] }
            else { st with final_terms := st.final_terms ++ [word] }
          else st

/-- `Encoder::encode` (lines 191-335).  Returns the token list together with
the encoder carrying its updated caches (interior mutability of `Cache` in
the source). -/
def Encoder.encode (e : Encoder) (input : String) : List String × Encoder :=
  let hit : Option (List String) := match e.cache with
    | some c =>
      if byteLen input ≤ c.cache_enc_length then cachePeek c.cache_enc input
      else none
    | none => none
  match hit with
  | some r => (r, e)
  | none =>
    let s := applyNormalize e input
    let s := if e.numeric && byteLen s > 3 then numericSplit s else s
    let words := applySplit e s
    let skip := !hasTransformations e
    let st0 : EncLoop :=
      { final_terms := [], dupes := [], last_term := "", last_term_enc := ""
        cache_term := match e.cache with
          | some c => c.cache_term
          | none => [] }
    let st := words.foldl (encodeWord e skip) st0
    let e' := match e.cache with
      | some c =>
        let c := { c with cache_term := st.cache_term }
        let c := if byteLen s ≤ c.cache_enc_length then
            { c with cache_enc := cachePut c.cache_enc s st.final_terms }
          else c
        { e with cache := some c }
      | none => e
    (st.final_terms, e')

/-! ## Keystore hashing and association-list model of the sharded maps

`KeystoreMap<K, V>` (`keystore/mod.rs`) stores `index : HashMap<usize,
HashMap<K, V>>`, addressed by a CRC-style hash reduced mod `2^bit`; all
instances used by `Index` are created with `bit = 8`.  Both
`Index::keystore_hash`, `Index::keystore_hash_str` (`index/mod.rs` lines
208-223) and `lcg` (`keystore/mod.rs` lines 325-331) compute the same
function.  `HashMap`s are modelled as insertion-ordered association lists. -/

/-- One step of the u32 CRC fold `crc = (crc << 8) ^ (crc >> 24) ^ (c as u32)`. -/
def crcStep (crc : Nat) (c : Char) : Nat :=
  (((crc <<< 8) % 2 ^ 32) ^^^ (crc >>> 24) ^^^ c.toNat) % 2 ^ 32

def lcgHash (s : String) (bit : Nat) : Nat :=
  (s.data.foldl crcStep 0) % 2 ^ bit

def keystoreHashStr (s : String) : Nat := lcgHash s 8

/-- Association-list lookup (`HashMap::get`). -/
def alGet {K V : Type} [DecidableEq K] : List (K × V) → K → Option V
  | [], _ => none
  | (k', v) :: rest, k => if k' = k then some v else alGet rest k

/-- `HashMap::entry(k).or_insert(d)` followed by a mutation `f` of the slot. -/
def alModify {K V : Type} [DecidableEq K] (l : List (K × V)) (k : K) (d : V)
    (f : V → V) : List (K × V) :=
  match l with
  | [] => [(k, f d)]
  | (k', v) :: rest =>
    if k' = k then (k', f v) :: rest else (k', v) :: alModify rest k d f

/-- `HashMap::insert` (overwrites). -/
def alInsert {K V : Type} [DecidableEq K] (l : List (K × V)) (k : K) (v : V) :
    List (K × V) :=
  alModify l k v (fun _ => v)

/-- `HashMap::get_mut(k)` followed by a mutation (no insertion if absent). -/
def alAdjust {K V : Type} [DecidableEq K] (l : List (K × V)) (k : K) (f : V → V) :
    List (K × V) :=
  match l with
  | [] => []
  | (k', v) :: rest =>
    if k' = k then (k', f v) :: rest else (k', v) :: alAdjust rest k f

/-! ## Inverted index: `index/mod.rs`, `index/builder.rs`, `index/remover.rs` -/

/-- Inner `HashMap<String, Vec<DocId>>` of a keystore shard. -/
abbrev Bucket := List (String × List Nat)

/-- `KeystoreMap<String, Vec<DocId>>.index`. -/
abbrev KIndex := List (Nat × Bucket)

inductive TokenizeMode where
  | Strict
  | Forward
  | Reverse
  | Full
  | Bidirectional
deriving DecidableEq, Repr

/-- `IndexRef` from `index/mod.rs` (lines 20-24). -/
inductive IndexRef where
  | MapRef (term : String)
  | CtxRef (keyword term : String)
deriving DecidableEq, Repr

/-- `Register` from `index/mod.rs` (lines 26-30): `Set(KeystoreSet<DocId>)`
or `Map(KeystoreMap<DocId, Vec<IndexRef>>)`, both with `bit = 8`. -/
inductive Register where
  | set (index : List (Nat × List Nat))
  | rmap (index : List (Nat × List (Nat × List IndexRef)))
deriving DecidableEq, Repr

/-- `ScoreFn` from `index/mod.rs` (line 48). -/
abbrev ScoreFn := List Nat → String → Nat → Option Nat → Option Nat → Nat

/-- `Index` from `index/mod.rs` (lines 32-46). -/
structure Index where
  map : KIndex
  ctx : KIndex
  reg : Register
  resolution : Nat
  resolution_ctx : Nat
  tokenize : TokenizeMode
  depth : Nat
  bidirectional : Bool
  fastupdate : Bool
  score : Option ScoreFn
  encoder : Encoder
  rtl : Bool

/-- `IndexOptions` from `index/mod.rs` (lines 244-271); its `Default` sets
every field to `None`. -/
structure IndexOptions where
  resolution : Option Nat
  resolution_ctx : Option Nat
  tokenize_mode : Option String
  depth : Option Nat
  bidirectional : Option Bool
  fastupdate : Option Bool
  score : Option ScoreFn
  encoder : Option EncoderOptions
  rtl : Option Bool

def IndexOptions.defaults : IndexOptions :=
  { resolution := none, resolution_ctx := none, tokenize_mode := none
    depth := none, bidirectional := none, fastupdate := none, score := none
    encoder := none, rtl := none }

/-- The `tokenize` match of `Index::new` (`index/mod.rs` lines 61-67): only
the four listed strings select a mode, everything else — including
`"bidirectional"` and the absent case — falls through to `Strict`. -/
def parseTokenizeMode : Option String → TokenizeMode
  | some s =>
    if s = "strict" then .Strict
    else if s = "forward" then .Forward
    else if s = "reverse" then .Reverse
    else if s = "full" then .Full
    else .Strict
  | none => .Strict

/-- `Index::new` from `index/mod.rs` (lines 51-89).  The source assigns
`Encoder::new(..)` without `?` (a type slip, since the field is `Encoder`
and the call returns `Result`); the `Result` is propagated here as evidently
intended. -/
def Index.new (o : IndexOptions) : Except EncErr Index := do
  let resolution := o.resolution.getD 9
  let resolution_ctx := o.resolution_ctx.getD resolution
  let depth := o.depth.getD 0
  let bidirectional := o.bidirectional.getD false
  let fastupdate := o.fastupdate.getD false
  let rtl := o.rtl.getD false
  let encoder ← Encoder.new (o.encoder.getD EncoderOptions.defaults)
  let tokenize := parseTokenizeMode o.tokenize_mode
  let reg := if fastupdate then Register.rmap [] else Register.set []
  pure { map := [], ctx := [], reg := reg, resolution := resolution
         resolution_ctx := resolution_ctx, tokenize := tokenize, depth := depth
         bidirectional := bidirectional, fastupdate := fastupdate
         score := o.score, encoder := encoder, rtl := rtl }

/-- `KeystoreSet::has` / `KeystoreMap::has` over the `Register`
(`index/mod.rs` lines 108-113). -/
def Register.has (r : Register) (id : Nat) : Bool :=
  match r with
  | .set l =>
    match alGet l (lcgHash (toString id) 8) with
    | some s => s.contains id
    | none => false
  | .rmap l =>
    match alGet l (lcgHash (toString id) 8) with
    | some m => (alGet m id).isSome
    | none => false

def Index.contains (idx : Index) (id : Nat) : Bool := idx.reg.has id

/-- `KeystoreSet::add` (`keystore/mod.rs` lines 134-142), used by the
non-fastupdate path of `add_document`; a no-op on the `Map` form (the source
pattern-matches `Register::Set` only). -/
def Register.addSet (r : Register) (id : Nat) : Register :=
  match r with
  | .set l => .set (alModify l (lcgHash (toString id) 8) []
      (fun s => if s.contains id then s else s ++ [id]))
  | .rmap l => .rmap l

/-- `KeystoreSet::delete` / `KeystoreMap::delete` over the `Register`
(`remover.rs` lines 14-23). -/
def Register.delete (r : Register) (id : Nat) : Register :=
  match r with
  | .set l => .set (alAdjust l (lcgHash (toString id) 8) (fun s => s.filter (· ≠ id)))
  | .rmap l => .rmap (alAdjust l (lcgHash (toString id) 8)
      (fun m => m.filter (fun p => p.1 ≠ id)))

/-- The conditional push of `push_index` (`index/mod.rs` lines 162-163 and
187-188): `if !append || !doc_ids_vec.contains(&id) { doc_ids_vec.push(id) }`.
Note the polarity: with `append = false` the id is pushed unconditionally;
with `append = true` it is pushed only when not already present. -/
def condPush (append : Bool) (id : Nat) (v : List Nat) : List Nat :=
  if !append || !(v.contains id) then v ++ [id] else v

/-- The fastupdate bookkeeping of `push_index` (lines 165-177, 190-201). -/
def regRecord (r : Register) (id : Nat) (ref : IndexRef) : Register :=
  match r with
  | .rmap l => .rmap (alModify l (lcgHash (toString id) 8) []
      (fun m => alModify m id [] (fun refs => refs ++ [ref])))
  | .set l => .set l

/-- `Index::push_index` from `index/mod.rs` (lines 130-206).  The `score`
argument is accepted but never used by the source (posting lists carry no
bucket dimension in this implementation). -/
def pushIndex (idx : Index) (dupes : List String) (term : String) (score : Nat)
    (id : Nat) (append : Bool) (keyword : Option String) : Index × List String :=
  let has_dupe := dupes.contains term
  let has_keyword_dupe := match keyword with
    | some kw => dupes.contains kw
    | none => false
  if !has_dupe || (keyword.isSome && !has_keyword_dupe) then
    let dupes := term :: dupes
    let dupes := match keyword with
      | some kw => kw :: dupes
      | none => dupes
    match keyword with
    | some kw =>
      let kwHash := keystoreHashStr kw
      let old := match alGet idx.ctx kwHash with
        | some b => (alGet b term).getD []
        | none => []
      let pushed := !append || !(old.contains id)
      let idx := { idx with
        ctx := alModify idx.ctx kwHash [] (fun b => alModify b term [] (condPush append id)) }
      let idx := if pushed && idx.fastupdate then
          { idx with reg := regRecord idx.reg id (.CtxRef kw term) }
        else idx
      (idx, dupes)
    | none =>
      let termHash := keystoreHashStr term
      let old := match alGet idx.map termHash with
        | some b => (alGet b term).getD []
        | none => []
      let pushed := !append || !(old.contains id)
      let idx := { idx with
        map := alModify idx.map termHash [] (fun b => alModify b term [] (condPush append id)) }
      let idx := if pushed && idx.fastupdate then
          { idx with reg := regRecord idx.reg id (.MapRef term) }
        else idx
      (idx, dupes)
  else (idx, dupes)

/-- `Index::get_score` from `index/mod.rs` (lines 115-128). -/
def Index.getScore (idx : Index) (resolution length i : Nat)
    (term_length x : Option Nat) : Nat :=
  match idx.score with
  | some f => f [] "" i none x
  | none => get_score resolution length i term_length x

/-- Rust panics reachable from the builder: byte-index slicing of a `&str`
off a char boundary, and `Option::unwrap` on `None`. -/
inductive RustPanic where
  | slice
  | unwrapNone
deriving DecidableEq, Repr

abbrev PResult (α : Type) := Except RustPanic α

/-- Drop `n` leading UTF-8 bytes from a char list; `none` when `n` is not a
char boundary (Rust: slicing panic). -/
def byteDrop : List Char → Nat → Option (List Char)
  | cs, 0 => some cs
  | [], _ + 1 => none
  | c :: cs, n + 1 =>
    if n + 1 < c.utf8Size then none else byteDrop cs (n + 1 - c.utf8Size)

/-- Take `n` leading UTF-8 bytes from a char list; `none` when `n` is not a
char boundary. -/
def byteTake : List Char → Nat → Option (List Char)
  | _, 0 => some []
  | [], _ + 1 => none
  | c :: cs, n + 1 =>
    if n + 1 < c.utf8Size then none
    else (byteTake cs (n + 1 - c.utf8Size)).map (c :: ·)

/-- Rust `&s[a..b]`: defined iff `a ≤ b ≤ s.len()` and both ends are char
boundaries; otherwise the slice panics (`none`). -/
def byteSlice (s : String) (a b : Nat) : Option String :=
  if a ≤ b then
    (byteDrop s.data a).bind (fun rest => (byteTake rest (b - a)).map (fun cs => ⟨cs⟩))
  else none

/-- `add_forward` from `index/builder.rs` (lines 153-168).  The loop runs
`x` over `0..term.len()` — the *byte* length — while indexing
`term.chars().nth(char_idx)` and unwrapping, so it panics on any multi-byte
term. -/
def addForward (idx : Index) (dupes : List String) (term : String) (score : Nat)
    (id : Nat) (append : Bool) (rtl : Bool) : PResult (Index × List String) := do
  let n := byteLen term
  let st ← (List.range n).foldlM
    (fun (st : Index × List String × String) x => do
      let (idx, dupes, token) := st
      let char_idx := if rtl then n - 1 - x else x
      match term.data.get? char_idx with
      | none => throw RustPanic.unwrapNone
      | some c =>
        let token := token.push c
        let (idx, dupes) := pushIndex idx dupes token score id append none
        pure (idx, dupes, token))
    (idx, dupes, "")
  pure (st.1, st.2.1)

/-- Loop body of `add_context` (`index/builder.rs` lines 189-222), over the
positions `x = 1, …, size-1`, with the `break` on `term_idx >= word_length`.
With `rtl` the source computes `word_length - 1 - i - x` in `usize`; the
wrap-around on underflow makes the subsequent bound check `break`, modelled
here by computing in `ℤ` and breaking when negative. -/
def addContextGo (keyword : String) (i depth : Nat) (rtl : Bool)
    (encoded : List String) (word_length id : Nat) (append : Bool) (size : Nat) :
    List Nat → Index × List String × List String → Index × List String
  | [], (idx, dupes, _) => (idx, dupes)
  | x :: xs, (idx, dupes, dupesInner) =>
    let term_idx : Int := if rtl then (word_length : Int) - 1 - i - x else (i : Int) + x
    if term_idx < 0 ∨ (word_length : Int) ≤ term_idx then (idx, dupes)
    else
      let context_term := encoded.getD term_idx.toNat ""
      if context_term ≠ "" ∧ ¬ dupesInner.contains context_term then
        let dupesInner := context_term :: dupesInner
        let resolution := idx.resolution_ctx
        let context_score := idx.getScore
          (resolution + if word_length / 2 > resolution then 0 else 1)
          word_length i (some (size - 1)) (some (x - 1))
        let swap := idx.bidirectional && keyword < context_term
        let (ctx_term, ctx_keyword) :=
          if swap then (keyword, context_term) else (context_term, keyword)
        let (idx, dupes) :=
          pushIndex idx dupes ctx_term context_score id append (some ctx_keyword)
        addContextGo keyword i depth rtl encoded word_length id append size xs
          (idx, dupes, dupesInner)
      else
        addContextGo keyword i depth rtl encoded word_length id append size xs
          (idx, dupes, dupesInner)

/-- `add_context` from `index/builder.rs` (lines 170-223). -/
def addContext (idx : Index) (dupes : List String) (term : String) (i depth : Nat)
    (rtl : Bool) (encoded : List String) (word_length id : Nat) (append : Bool) :
    Index × List String :=
  let keyword := term
  let size := min depth (if rtl then i + 1 else word_length - i)
  addContextGo keyword i depth rtl encoded word_length id append size
    (List.range' 1 (size - 1)) (idx, dupes, [keyword])

/-- `add_strict` from `index/builder.rs` (lines 133-151). -/
def addStrict (idx : Index) (dupes : List String) (term : String) (score id : Nat)
    (append : Bool) (depth : Nat) (rtl : Bool) (i : Nat) (encoded : List String)
    (word_length : Nat) : Index × List String :=
  let (idx, dupes) := pushIndex idx dupes term score id append none
  if depth > 0 ∧ word_length > 1 ∧ i < word_length - 1 then
    addContext idx dupes term i depth rtl encoded word_length id append
  else (idx, dupes)

/-- One iteration (index `i`) of the main term loop of `add_document`
(`index/builder.rs` lines 35-122), threading `(index, dupes, dupes_ctx)`. -/
def addDocumentTerm (id : Nat) (append : Bool) (encoded : List String)
    (word_length : Nat) (st : Index × List String × List String) (i : Nat) :
    PResult (Index × List String × List String) := do
  let (idx, dupes, dupes_ctx) := st
  let rtl := idx.rtl
  let depth := idx.depth
  let resolution := idx.resolution
  let term_idx := if rtl then word_length - 1 - i else i
  let term := encoded.getD term_idx ""
  let term_length := byteLen term
  if term_length = 0 then pure st
  else if depth = 0 ∧ dupes.contains term then pure st
  else
    let score := idx.getScore resolution word_length i (some term_length) none
    match idx.tokenize with
    | .Full =>
      if term_length > 2 then do
        let (idx, dupes) ← (List.range term_length).foldlM
          (fun (st : Index × List String) x => do
            let (idx, dupes) := st
            ((List.range' (x + 1) (term_length - x)).reverse).foldlM
              (fun (st : Index × List String) y => do
                let (idx, dupes) := st
                match byteSlice term x y with
                | none => throw RustPanic.slice
                | some token =>
                  let x_idx := if rtl then term_length - 1 - x else x
                  let partial_score := idx.getScore resolution word_length i
                    (some term_length) (some x_idx)
                  pure (pushIndex idx dupes token partial_score id append none))
              (idx, dupes))
          (idx, dupes)
        pure (idx, dupes, dupes_ctx)
      else
        let (idx, dupes) :=
          addStrict idx dupes term score id append depth rtl i encoded word_length
        pure (idx, dupes, dupes_ctx)
    | .Bidirectional => do
      let (idx, dupes) ←
        if term_length > 1 then
          ((List.range' 1 (term_length - 1)).reverse).foldlM
            (fun (st : Index × List String) x => do
              let (idx, dupes) := st
              let start := if rtl then term_length - 1 - x else x
              match byteSlice term start term_length with
              | none => throw RustPanic.slice
              | some token =>
                let partial_score := idx.getScore resolution word_length i
                  (some term_length) (some x)
                pure (pushIndex idx dupes token partial_score id append none))
            (idx, dupes)
        else pure (idx, dupes)
      let (idx, dupes) ← addForward idx dupes term score id append rtl
      if depth > 0 then
        let (idx, dupes_ctx) :=
          addContext idx dupes_ctx term i depth rtl encoded word_length id append
        pure (idx, dupes, dupes_ctx)
      else pure (idx, dupes, dupes_ctx)
    | .Reverse => do
      let (idx, dupes) ←
        if term_length > 1 then
          ((List.range' 1 (term_length - 1)).reverse).foldlM
            (fun (st : Index × List String) x => do
              let (idx, dupes) := st
              let start := if rtl then term_length - 1 - x else x
              match byteSlice term start term_length with
              | none => throw RustPanic.slice
              | some token =>
                let partial_score := idx.getScore resolution word_length i
                  (some term_length) (some x)
                pure (pushIndex idx dupes token partial_score id append none))
            (idx, dupes)
        else pure (idx, dupes)
      if depth > 0 then
        let (idx, dupes_ctx) :=
          addContext idx dupes_ctx term i depth rtl encoded word_length id append
        pure (idx, dupes, dupes_ctx)
      else pure (idx, dupes, dupes_ctx)
    | .Forward => do
      let (idx, dupes) ←
        if term_length > 1 then addForward idx dupes term score id append rtl
        else pure (pushIndex idx dupes term score id append none)
      if depth > 0 then
        let (idx, dupes_ctx) :=
          addContext idx dupes_ctx term i depth rtl encoded word_length id append
        pure (idx, dupes, dupes_ctx)
      else pure (idx, dupes, dupes_ctx)
    | .Strict =>
      let (idx, dupes) :=
        addStrict idx dupes term score id append depth rtl i encoded word_length
      pure (idx, dupes, dupes_ctx)

/-- The body of `add_document` after the empty/zero and update routing
(`index/builder.rs` lines 22-130). -/
def addDocumentCore (idx : Index) (id : Nat) (content : String) (append : Bool) :
    PResult Index := do
  let (encoded, enc') := idx.encoder.encode content
  let idx := { idx with encoder := enc' }
  let word_length := encoded.length
  if word_length = 0 then pure idx
  else do
    let (idx, _, _) ← (List.range word_length).foldlM
      (addDocumentTerm id append encoded word_length) (idx, [], [])
    if !idx.fastupdate then pure { idx with reg := idx.reg.addSet id }
    else pure idx

/-- `swap_remove(pos)`: move the last element into `pos` and pop. -/
def swapRemove (l : List Nat) (pos : Nat) : List Nat :=
  match l.getLast? with
  | none => l
  | some last => (l.set pos last).dropLast

/-- Posting-list surgery of `remove_fastupdate` (`index/remover.rs` lines
56-68): pop when the id is last, otherwise swap-remove, clearing a singleton
list. -/
def removeRefList (ids : List Nat) (id : Nat) : List Nat :=
  if ids.getLast? = some id then ids.dropLast
  else match ids.findIdx? (· = id) with
    | some pos => if ids.length > 1 then swapRemove ids pos else []
    | none => ids

/-- `remove_fastupdate` from `index/remover.rs` (lines 43-95). -/
def removeFastupdate (idx : Index) (refs : List IndexRef) (id : Nat) : Index :=
  refs.foldl (fun idx ref =>
    match ref with
    | .MapRef term =>
      { idx with map := (alAdjust idx.map (keystoreHashStr term)
          (fun b => alAdjust b term (fun ids => removeRefList ids id))) }
    | .CtxRef kw term =>
      { idx with ctx := (alAdjust idx.ctx (keystoreHashStr kw)
          (fun b => alAdjust b term (fun ids => removeRefList ids id))) }) idx

/-- `get_fastupdate_refs` from `index/remover.rs` (lines 28-41). -/
def getFastupdateRefs (idx : Index) (id : Nat) : Option (List IndexRef) :=
  match idx.reg with
  | .rmap l => (alGet l (lcgHash (toString id) 8)).bind (fun m => alGet m id)
  | _ => none

/-- Shard surgery of `remove_from_index` (`index/remover.rs` lines 97-137):
swap-remove the id from every posting list; a posting list holding only the
id has its whole term entry removed afterwards. -/
def removeFromBucket (b : Bucket) (id : Nat) : Bucket :=
  b.foldr (fun tv acc =>
    match tv.2.findIdx? (· = id) with
    | none => tv :: acc
    | some pos =>
      if tv.2.length > 1 then (tv.1, swapRemove tv.2 pos) :: acc else acc) []

def removeFromIndexMaps (idx : Index) (id : Nat) : Index :=
  { idx with
    map := idx.map.map (fun p => (p.1, removeFromBucket p.2 id)),
    ctx := idx.ctx.map (fun p => (p.1, removeFromBucket p.2 id)) }

/-- `remove_document` from `index/remover.rs` (lines 5-26). -/
def removeDocument (idx : Index) (id : Nat) (skip_deletion : Bool) : Index :=
  let idx :=
    if idx.fastupdate then
      match getFastupdateRefs idx id with
      | some refs => removeFastupdate idx refs id
      | none => idx
    else removeFromIndexMaps idx id
  if !skip_deletion then { idx with reg := idx.reg.delete id } else idx

/-- `add_document` from `index/builder.rs` (lines 5-131).  The update route
(line 18) calls `Index::update`, which removes the document and re-enters
`add`; after the removal `contains(id)` is `false`, so the re-entrant call
takes the plain path — the model unfolds that one step, keeping the
definition terminating. -/
def addDocument (idx : Index) (id : Nat) (content : String)
    (append skip_update : Bool) : PResult Index :=
  if content = "" ∨ id = 0 then .ok idx
  else if !skip_update && !append && idx.contains id then
    addDocumentCore (removeDocument idx id false) id content false
  else addDocumentCore idx id content append

/-- `Index::add` (`index/mod.rs` lines 91-93). -/
def Index.add (idx : Index) (id : Nat) (content : String) (append : Bool) :
    PResult Index :=
  addDocument idx id content append false

/-- `Index::remove` (`index/mod.rs` lines 95-97). -/
def Index.remove (idx : Index) (id : Nat) (skip_deletion : Bool) : Index :=
  removeDocument idx id skip_deletion

/-- `Index::update` (`index/mod.rs` lines 225-228). -/
def Index.update (idx : Index) (id : Nat) (content : String) : PResult Index :=
  (removeDocument idx id false).add id content false

/-- `Index::clear` (`index/mod.rs` lines 99-106). -/
def Index.clear (idx : Index) : Index :=
  { idx with
    map := [], ctx := [],
    reg := (match idx.reg with
      | .set _ => .set []
      | .rmap _ => .rmap []) }

/-! ## Set algebra: `intersect` and `union` from `intersect/mod.rs`

This is the variant wired into the crate (`intersect/core.rs` is not
declared as a submodule).  The `check` hash map (id → count) is accessed by
key only, so the computation is deterministic; it is modelled as an
association list.  Early `return`s inside the loops are modelled with the
`Except` monad (`throw` = early return). -/

/-- `result[slot][score_idx] = id` after `resize(score_idx + 1, 0)`
(`intersect/mod.rs` lines 60-63): note the zero padding writes literal id 0. -/
def vecResizeSet (l : List Nat) (i v : Nat) : List Nat :=
  if i < l.length then l.set i v
  else (l ++ List.replicate (i + 1 - l.length) 0).set i v

/-- Inner element step of `union` (`intersect/mod.rs` lines 129-147). -/
def unionStep (limit : Nat) (st : List Nat × Nat × List Nat × Nat) (id : Nat) :
    Except (List Nat) (List Nat × Nat × List Nat × Nat) :=
  let (check, offsetRem, result, count) := st
  if check.contains id then .ok st
  else
    let check := id :: check
    if offsetRem > 0 then .ok (check, offsetRem - 1, result, count)
    else
      let result := result ++ [id]
      let count := count + 1
      if limit > 0 ∧ count ≥ limit then .error result
      else .ok (check, offsetRem, result, count)

/-- `union` from `intersect/mod.rs` (lines 114-151): reverse iteration over
the arrays and over each array's elements, de-duplicating, skipping
`offset` fresh ids and stopping at `limit`. -/
def unionMod (arrays : List (List Nat)) (limit offset : Nat) : List Nat :=
  match arrays.reverse.foldlM
      (fun st ids => ids.reverse.foldlM (unionStep limit) st)
      (([], offset, [], 0) : List Nat × Nat × List Nat × Nat) with
  | .error result => result
  | .ok (_, _, result, _) => result

/-- One `(y, x)` iteration of the main loop of `intersect`
(`intersect/mod.rs` lines 30-66).  In the non-resolve branch the source
computes `score as usize` from an `i32`; a negative boost would wrap — the
model truncates at 0 (never evaluated with negative boost here). -/
def intersectStep (arrays : List (List Nat)) (length limit offset : Nat)
    (suggest : Bool) (boost : Int) (resolve : Bool)
    (st : List (Nat × Nat) × List (List Nat)) (yx : Nat × Nat) :
    Except (List Nat) (List (Nat × Nat) × List (List Nat)) :=
  let (check, result) := st
  let y := yx.1
  let x := yx.2
  let arr := arrays.getD x []
  if y ≥ arr.length then .ok st
  else
    let id := arr.getD y 0
    let count := ((alGet check id).getD 0) + 1
    let check := alInsert check id count
    let slot_idx := count
    let result := if slot_idx > result.length then result ++ [[]] else result
    if resolve then
      let slot := (result.getD (slot_idx - 1) []) ++ [id]
      let result := result.set (slot_idx - 1) slot
      if limit > 0 ∧ slot_idx = length - 1 ∧ slot.length ≥ offset + limit then
        .error ((slot.drop offset).take limit)
      else .ok (check, result)
    else
      let score : Int := (y : Int) + (if x > 0 ∨ !suggest then 0 else boost)
      let score_idx := score.toNat
      let slot := vecResizeSet (result.getD (slot_idx - 1) []) score_idx id
      .ok (check, result.set (slot_idx - 1) slot)

/-- Rust slice `v[start..end]` with `end = min(start+limit, len)` when
`limit > 0`, else `v[start..]`, as computed in `intersect`'s tails
(`intersect/mod.rs` lines 81-110); only evaluated in-range here. -/
def sliceTail (v : List Nat) (limit offset : Nat) : List Nat :=
  if limit > 0 ∨ offset > 0 then
    let e := if limit > 0 then min (offset + limit) v.length else v.length
    (v.take e).drop offset
  else v

/-- `intersect` from `intersect/mod.rs` (lines 4-112). -/
def intersectMod (arrays : List (List Nat)) (resolution limit offset : Nat)
    (suggest : Bool) (boost : Int) (resolve : Bool) : List Nat :=
  let length := arrays.length
  if length = 0 then []
  else if length = 1 then (arrays.getD 0 []).drop offset
  else
    let pairs := (List.range resolution).flatMap
      (fun y => (List.range length).map (fun x => (y, x)))
    match pairs.foldlM (intersectStep arrays length limit offset suggest boost resolve)
        ([], []) with
    | .error early => early
    | .ok (_, result) =>
      let result_len := result.length
      if result_len = 0 then []
      else if !suggest then
        if result_len < length then []
        else
          let final_result := result.getD (length - 1) []
          if resolve then sliceTail final_result limit offset else final_result
      else
        if result_len > 1 then unionMod result limit offset
        else sliceTail (result.getD 0 []) limit offset

/-! ## Search: `search/mod.rs`

`search/mod.rs` declares no submodules, so `coordinator.rs`,
`single_term.rs` etc. are not part of the module tree; the functions below
are the ones reachable from `Index::search`. -/

/-- `SearchOptions` from `type/mod.rs` (lines 57-94), scalar fields (the
`tag`/`field` sub-option lists are not consulted by `search`). -/
structure SearchOptions where
  query : Option String
  limit : Option Nat
  offset : Option Nat
  resolution : Option Nat
  context : Option Bool
  suggest : Option Bool
  resolve : Option Bool
  enrich : Option Bool
  cache : Option Bool
  pluck : Option String
  merge : Option Bool
  boost : Option Int

/-- `SearchOptions::default()` (`type/mod.rs` lines 75-94). -/
def SearchOptions.defaults : SearchOptions :=
  { query := none, limit := some 100, offset := some 0, resolution := none
    context := none, suggest := some false, resolve := some true
    enrich := some false, cache := some false, pluck := none
    merge := some false, boost := none }

/-- `get_array` from `search/mod.rs` (lines 138-176).  The value stored
under a term key is a single `Vec<DocId>`; the source's
`for (_, doc_ids) in …` iteration over it contributes that vector as the one
sub-array of the result. -/
def getArray (idx : Index) (term keyword : String) : Option (List (List Nat)) :=
  let p : String × String :=
    if keyword ≠ "" ∧ idx.bidirectional ∧ keyword < term then (keyword, term)
    else (term, keyword)
  let term := p.1
  let keyword := p.2
  if keyword ≠ "" then
    match alGet idx.ctx (keystoreHashStr keyword) with
    | some ctx_map =>
      match alGet ctx_map term with
      | some doc_ids => some [doc_ids]
      | none => none
    | none => none
  else
    match alGet idx.map (keystoreHashStr term) with
    | some term_map =>
      match alGet term_map term with
      | some doc_ids => some [doc_ids]
      | none => none
    | none => none

/-- Per-sub-array step of `resolve_default` (`search/mod.rs` lines 246-271),
with the `break` on exhausted limit as an early return. -/
def resolveDefaultStep (st : List Nat × Nat × Nat) (ids : List Nat) :
    Except (List Nat) (List Nat × Nat × Nat) :=
  let (results, remLimit, remOffset) := st
  if ids = [] then .ok st
  else if remOffset > 0 then
    if ids.length ≤ remOffset then .ok (results, remLimit, remOffset - ids.length)
    else
      let e := min (remOffset + remLimit) ids.length
      let results := results ++ ((ids.take e).drop remOffset)
      let remLimit := remLimit - (e - remOffset)
      if remLimit = 0 then .error results else .ok (results, remLimit, 0)
  else
    let e := min remLimit ids.length
    let results := results ++ ids.take e
    let remLimit := remLimit - e
    if remLimit = 0 then .error results else .ok (results, remLimit, 0)

/-- `resolve_default` from `search/mod.rs` (lines 241-274). -/
def resolveDefault (arr : List (List Nat)) (limit offset : Nat) : List Nat :=
  match arr.foldlM resolveDefaultStep ([], limit, offset) with
  | .error r => r
  | .ok (r, _, _) => r

/-- `single_term_query` from `search/mod.rs` (lines 108-136); both `resolve`
branches of the source call `resolve_default`. -/
def singleTermQuery (idx : Index) (term keyword : String) (limit offset : Nat) :
    List Nat :=
  match getArray idx term keyword with
  | some arr => if arr ≠ [] then resolveDefault arr limit offset else []
  | none => []

/-- `add_result` from `search/mod.rs` (lines 178-215).  A `Some` return
tells the caller to replace its result and break.  In the non-empty cases
the source clones the caller's result into `new_result`, pushes into the
clone and then returns `None`, *discarding* the clone — so those pushes
never reach the caller. -/
def addResult (arr : List (List Nat)) (suggest : Bool) (resolution : Nat) :
    Option (List (List (List Nat))) :=
  if arr = [] then (if !suggest then some [] else none)
  else if arr.length ≤ resolution then none
  else
    let word_arr := (List.range resolution).foldl
      (fun acc x => if x < arr.length then acc ++ [arr.getD x []] else acc) []
    if word_arr = [] then (if !suggest then some [] else none)
    else none

/-- One term of the multi-term loop of `search` (`search/mod.rs` lines
48-72); early `break` via `Except`. -/
def searchTermStep (idx : Index) (suggest : Bool) (resolution : Nat)
    (st : List (List (List Nat)) × List String × String) (term : String) :
    Except (List (List (List Nat)) × List String × String)
      (List (List (List Nat)) × List String × String) :=
  let (result, dupes, keyword) := st
  if term = "" ∨ dupes.contains term then .ok st
  else
    let dupes := term :: dupes
    let processed := match getArray idx term keyword with
      | some arr => addResult arr suggest resolution
      | none => none
    match processed with
    | some p => .error (p, dupes, keyword)
    | none =>
      let keyword := if keyword ≠ "" ∧ (!suggest ∨ result = []) then term else keyword
      .ok (result, dupes, keyword)

/-- `return_result` from `search/mod.rs` (lines 217-239). -/
def returnResult (result : List (List (List Nat))) (resolution limit offset : Nat)
    (suggest : Bool) (resolve : Bool) : List Nat :=
  if result.length = 0 then []
  else if result.length = 1 then resolveDefault (result.getD 0 []) limit offset
  else intersectMod result.flatten resolution limit offset suggest 0 resolve

/-- `search` from `search/mod.rs` (lines 11-106), returning the `results`
field of `SearchResult`.  The suggest-retry block (lines 74-98) accumulates
into locals shadowing `result`/`dupes` that never escape the block, so it
cannot affect the returned value and is omitted.  Query encoding reads the
encoder's caches; the interior cache mutation does not affect the returned
ids and the model takes the token list only. -/
def search (idx : Index) (o : SearchOptions) : List Nat :=
  let query := o.query.getD ""
  let limit := o.limit.getD 100
  let offset := o.offset.getD 0
  let context := o.context.getD (idx.depth > 0)
  let suggest := o.suggest.getD false
  let resolve := o.resolve.getD true
  let resolution := o.resolution.getD
    (if context then idx.resolution_ctx else idx.resolution)
  let query_terms := (idx.encoder.encode query).1
  let length := query_terms.length
  if length = 0 then []
  else if length = 1 then
    singleTermQuery idx (query_terms.getD 0 "") "" limit offset
  else if length = 2 ∧ context ∧ !suggest then
    singleTermQuery idx (query_terms.getD 1 "") (query_terms.getD 0 "") limit offset
  else
    let index_ptr := if context then 1 else 0
    let keyword0 := if context then query_terms.getD 0 "" else ""
    let terms := query_terms.drop index_ptr
    let result := match terms.foldlM (searchTermStep idx suggest resolution)
        ([], [], keyword0) with
      | .error (r, _, _) => r
      | .ok (r, _, _) => r
    returnResult result resolution limit offset suggest resolve

/-! ## Serialization: `serialize.rs` -/

/-- `IndexInfo` (`serialize.rs` lines 46-56). -/
structure IndexInfo where
  resolution : Nat
  resolution_ctx : Nat
  tokenize_mode : String
  depth : Nat
  bidirectional : Bool
  fastupdate : Bool
  rtl : Bool
  encoder_type : String
deriving DecidableEq, Repr

/-- `RegistryData` (`serialize.rs` lines 67-71); `IndexRefData` is carried
as `IndexRef` (the conversions `from_index_ref`/`to_index_ref` are identity
up to renaming). -/
inductive RegistryData where
  | set (ids : List Nat)
  | rmap (m : List (Nat × List IndexRef))
deriving DecidableEq, Repr

/-- `ExportData` (`serialize.rs` lines 59-64). -/
structure ExportData where
  main_index : List (String × List Nat)
  context_index : List (String × List (String × List Nat))
  registry : RegistryData
deriving DecidableEq, Repr

/-- `IndexExportData` (`serialize.rs` lines 37-43); `created_at` is a
`chrono` wall-clock string never read by `import` and modelled as `""`. -/
structure IndexExportData where
  version : String
  created_at : String
  index_info : IndexInfo
  data : ExportData
deriving DecidableEq, Repr

/-- `format!("{:?}", tokenize).to_lowercase()` (`serialize.rs` line 86). -/
def tokenizeModeString : TokenizeMode → String
  | .Strict => "strict"
  | .Forward => "forward"
  | .Reverse => "reverse"
  | .Full => "full"
  | .Bidirectional => "bidirectional"

/-- `export_main_index` (`serialize.rs` lines 113-123). -/
def exportMainIndex (idx : Index) : List (String × List Nat) :=
  idx.map.foldl (fun acc p => p.2.foldl (fun acc q => alInsert acc q.1 q.2) acc) []

/-- `export_context_index` (`serialize.rs` lines 126-140): the context
keyword exists only as a hash in `ctx.index`, so the exporter emits the
synthetic key `"ctx_{N}"` numbered by iteration position ("简化处理" in the
source); the reverse mapping `get_ctx_key_string` returns `None`. -/
def exportContextIndex (idx : Index) : List (String × List (String × List Nat)) :=
  idx.ctx.foldl (fun acc p =>
    let ctx_data := p.2.foldl (fun cd q => alInsert cd q.1 q.2) []
    alInsert acc ("ctx_" ++ toString acc.length) ctx_data) []

/-- `export_registry` (`serialize.rs` lines 143-167). -/
def exportRegistry (idx : Index) : RegistryData :=
  match idx.reg with
  | .set l => RegistryData.set (l.foldl (fun acc p => acc ++ p.2) [])
  | .rmap l => RegistryData.rmap
      (l.foldl (fun acc p => p.2.foldl (fun a q => alInsert a q.1 q.2) acc) [])

/-- `Index::export` (`serialize.rs` lines 82-110); always `Ok` in the
source. -/
def Index.export (idx : Index) : IndexExportData :=
  { version := "0.1.0", created_at := ""
    index_info :=
      { resolution := idx.resolution, resolution_ctx := idx.resolution_ctx
        tokenize_mode := tokenizeModeString idx.tokenize, depth := idx.depth
        bidirectional := idx.bidirectional, fastupdate := idx.fastupdate
        rtl := idx.rtl, encoder_type := "default" }
    data :=
      { main_index := exportMainIndex idx
        context_index := exportContextIndex idx
        registry := exportRegistry idx } }

/-- Serialization errors (`error.rs`): unsupported export version. -/
inductive SerErr where
  | unsupportedVersion (v : String)
deriving DecidableEq, Repr

/-- `import_main_index` (`serialize.rs` lines 194-203): for each term the
shard at `hash(term)` is *replaced* by a fresh map holding only that term. -/
def importMainIndex (idx : Index) (data : List (String × List Nat)) : Index :=
  data.foldl (fun idx p =>
    { idx with map := alInsert idx.map (keystoreHashStr p.1) [(p.1, p.2)] }) idx

/-- `import_context_index` (`serialize.rs` lines 206-217): the shard at
`hash(ctx_key)` — the hash of the synthetic exported key — is replaced by
the imported term map. -/
def importContextIndex (idx : Index)
    (data : List (String × List (String × List Nat))) : Index :=
  data.foldl (fun idx p =>
    let bucket := p.2.foldl (fun b q => alInsert b q.1 q.2) []
    { idx with ctx := alInsert idx.ctx (keystoreHashStr p.1) bucket }) idx

/-- `import_registry` (`serialize.rs` lines 220-263). -/
def importRegistry (idx : Index) (data : RegistryData) : Index :=
  match data with
  | .set doc_ids =>
    (match idx.reg with
     | .set l =>
       { idx with reg := Register.set (doc_ids.foldl (fun l id =>
           alModify l (keystoreHashStr (toString id)) []
             (fun s => if s.contains id then s else s ++ [id])) l) }
     | .rmap _ => idx)
  | .rmap m =>
    (match idx.reg with
     | .rmap l =>
       { idx with reg := Register.rmap (m.foldl (fun l p =>
           alModify l (keystoreHashStr (toString p.1)) []
             (fun mm => alInsert mm p.1 p.2)) l) }
     | .set _ => idx)

/-- `Index::import` (`serialize.rs` lines 169-191). -/
def Index.import (idx : Index) (data : IndexExportData) : Except SerErr Index :=
  if data.version ≠ "0.1.0" then .error (.unsupportedVersion data.version)
  else
    let idx := idx.clear
    let idx := importMainIndex idx data.data.main_index
    let idx := importContextIndex idx data.data.context_index
    let idx := importRegistry idx data.data.registry
    .ok idx

/-! ## Field-path extraction: `document/tree.rs`

`serde_json::Value` is modelled by `Json` (numbers as integers — no claim
evaluates fractional numbers).  `parse_tree`'s `marker` out-parameter is not
consulted by `extract_value` and is omitted.  The source indexes the part
string by bytes; on the ASCII paths evaluated here byte and char indices
coincide and the model uses char indices. -/

inductive Json where
  | null
  | bool (b : Bool)
  | num (n : Int)
  | str (s : String)
  | arr (xs : List Json)
  | obj (fields : List (String × Json))

/-- `TreePath` from `document/tree.rs` (lines 26-36). -/
inductive TreePath where
  | field (name : String)
  | index (i : Nat) (base : String)
  | negativeIndex (i : Nat) (base : String)
  | range (s e : Nat) (base : String)
deriving DecidableEq, Repr

/-- Decimal value of a digit list. -/
def digitsVal (cs : List Char) : Nat :=
  cs.foldl (fun n c => n * 10 + (c.toNat - 48)) 0

/-- `s.parse::<usize>().unwrap_or(0)`. -/
def parseUsize (cs : List Char) : Nat :=
  if cs ≠ [] ∧ cs.all Char.isDigit then digitsVal cs else 0

/-- `str::rfind(c)`: index of the last occurrence. -/
def rfindIdx (cs : List Char) (c : Char) : Option Nat :=
  match cs.reverse.findIdx? (· = c) with
  | some k => some (cs.length - 1 - k)
  | none => none

/-- `str::split(sep)` for a one-character separator. -/
def splitOnCharGo (sep : Char) : List Char → List Char → List (List Char)
  | [], acc => [acc.reverse]
  | c :: cs, acc =>
    if c = sep then acc.reverse :: splitOnCharGo sep cs []
    else splitOnCharGo sep cs (c :: acc)

def splitOnChar (sep : Char) (cs : List Char) : List (List Char) :=
  splitOnCharGo sep cs []

/-- One `part` of `parse_tree` (`document/tree.rs` lines 53-84). -/
def parsePart (part : String) : TreePath :=
  let cs := part.data
  match rfindIdx cs '[' with
  | none => .field part
  | some start =>
    let index_part : List Char := (cs.drop (start + 1)).dropLast
    let base_field : String := ⟨cs.take start⟩
    if index_part.contains '-' ∧ index_part.head? ≠ some '-' then
      let range_parts := splitOnChar '-' index_part
      if range_parts.length = 2 then
        .range (parseUsize (range_parts.getD 0 []))
          (parseUsize (range_parts.getD 1 [])) base_field
      else .field part
    else if index_part.head? = some '-' then
      .negativeIndex (parseUsize index_part.tail) base_field
    else .index (parseUsize index_part) base_field

/-- `parse_tree` from `document/tree.rs` (lines 49-87): note the split on
`':'` (not `'.'`). -/
def parse_tree (key : String) : List TreePath :=
  (splitOnChar ':' key.data).map (fun cs => parsePart ⟨cs⟩)

/-- `Value::get(name)` on an object. -/
def jsonGet (j : Json) (name : String) : Option Json :=
  match j with
  | .obj fields => alGet fields name
  | _ => none

/-- `Value::as_array()`. -/
def jsonAsArray : Json → Option (List Json)
  | .arr xs => some xs
  | _ => none

mutual

/-- Minimal `serde_json` serializer for the fall-through
`current.to_string()` case of `extract_value`. -/
def jsonDump : Json → String
  | .null => "null"
  | .bool b => toString b
  | .num n => toString n
  | .str s => "\"" ++ s ++ "\""
  | .arr xs => "[" ++ String.intercalate "," (jsonDumpList xs) ++ "]"
  | .obj fs => "\x7b" ++ String.intercalate "," (jsonDumpFields fs) ++ "\x7d"

def jsonDumpList : List Json → List String
  | [] => []
  | j :: js => jsonDump j :: jsonDumpList js

def jsonDumpFields : List (String × Json) → List String
  | [] => []
  | p :: fs => ("\"" ++ p.1 ++ "\":" ++ jsonDump p.2) :: jsonDumpFields fs

end

/-- The leaf conversion of `extract_value` (`document/tree.rs` lines
112-118). -/
def jsonLeafString : Json → String
  | .str s => s
  | .num n => toString n
  | .bool b => toString b
  | .null => ""
  | j => jsonDump j

/-- `extract_value` from `document/tree.rs` (lines 90-119).  An
`Index`/`NegativeIndex` segment ignores its base-field name and requires the
*current* node to be an array; the negative position is
`len.saturating_sub(idx + 1)`. -/
def extract_value (document : Json) (path : List TreePath) : Option String :=
  match path with
  | [] => some (jsonLeafString document)
  | seg :: rest =>
    match seg with
    | .field name => (jsonGet document name).bind (extract_value · rest)
    | .index i _ => (jsonAsArray document).bind
        (fun a => (a.get? i).bind (extract_value · rest))
    | .negativeIndex k _ => (jsonAsArray document).bind
        (fun a => (a.get? (a.length - (k + 1))).bind (extract_value · rest))
    | .range _ _ _ => none

/-! ## Concrete fixtures used by the claim theorems -/

/-- The value `Encoder::new(EncoderOptions::default())` constructs (checked
by `Encoder_new_defaults` below). -/
def defaultEncoder : Encoder :=
  { normalize := true, split := .whitespace, numeric := true, filter := none
    dedupe := true, matcher := none, mapper := none, stemmer := none
    replacer := none, minlength := 1, maxlength := 1024, rtl := false
    cache := some { size := 200000, cache_enc := [], cache_term := []
                    cache_enc_length := 128, cache_term_length := 128 } }

/-- The value `Index::new(IndexOptions::default())` constructs (checked by
`Index_new_defaults` below). -/
def emptyTestIndex : Index :=
  { map := [], ctx := [], reg := .set [], resolution := 9, resolution_ctx := 9
    tokenize := .Strict, depth := 0, bidirectional := false, fastupdate := false
    score := none, encoder := defaultEncoder, rtl := false }

/-- An index whose posting list for `"hello"` already holds DocId 1. -/
def c3Index : Index :=
  { emptyTestIndex with map := [(keystoreHashStr "hello", [("hello", [1])])] }

/-- The posting list of `term` in the main term index (shard at
`hash(term)`, entry `term`). -/
def mainPosting (idx : Index) (term : String) : List Nat :=
  match alGet idx.map (keystoreHashStr term) with
  | some b => (alGet b term).getD []
  | none => []

/-- Search options of the round-trip scenario: the two-term query with the
context path requested explicitly (the imported index is a fresh default
index with `depth = 0`, so `context` must be set to compare like with
like). -/
def c2SearchOpts : SearchOptions :=
  { SearchOptions.defaults with query := some "hello world", context := some true }

/-- Round-trip scenario: build an index with `depth = 2`, add one document,
export, import into a fresh default index, and run the same context query on
both.  Returns the two result lists. -/
def c2Pipeline : Except EncErr (List Nat × List Nat) :=
  match Index.new { IndexOptions.defaults with depth := some 2 },
        Index.new IndexOptions.defaults with
  | .ok i0, .ok fresh =>
    (match i0.add 1 "hello world" false with
     | .ok i1 =>
       (match fresh.import i1.export with
        | .ok j => .ok (search i1 c2SearchOpts, search j c2SearchOpts)
        | .error _ => .error (.encoding "import rejected"))
     | .error _ => .error (.encoding "add panicked"))
  | _, _ => .error (.encoding "construction failed")

/-- Totality scenario of `add` under `Full` tokenization on a multi-byte
term; the `Index` result is collapsed to `true` so the outcome is
decidable. -/
def c9Pipeline : Except EncErr (PResult Bool) :=
  (Index.new { IndexOptions.defaults with tokenize_mode := some "full" }).map
    (fun i0 => (i0.add 1 "中文字" false).map (fun _ => true))

/-- Encoder options whose replacer holds the syntactically invalid pattern
`"("`. -/
def c6Opts : EncoderOptions :=
  { EncoderOptions.defaults with replacer := some [("(", "x")] }

/-- Key generator for the cache-growth scenario: 18 characters over
`{'a','b'}` encoding the bits of `i`, so keys are distinct for `i < 2^18`. -/
def mkKey (i : Nat) : String :=
  ⟨(List.range 18).map (fun k => if i.testBit k then 'b' else 'a')⟩

def mkKeys (n : Nat) : List String := (List.range n).map mkKey

/-- Fold a sequence of `encode` calls through an encoder, keeping the
mutated cache state. -/
def encodeFold (e : Encoder) (inputs : List String) : Encoder :=
  inputs.foldl (fun e s => (e.encode s).2) e

/-- Number of entries currently held by the full-input cache. -/
def cacheEncLen (e : Encoder) : Nat :=
  match e.cache with
  | some c => c.cache_enc.length
  | none => 0

/-- The recorded fixed capacity of the caches (the `size` field). -/
def cacheDeclaredSize (e : Encoder) : Nat :=
  match e.cache with
  | some c => c.size
  | none => 0

/-- The JSON record `{"f": ["A", "B"]}`. -/
def c8Doc : Json := .obj [("f", .arr [.str "A", .str "B"])]

/-- The default encoder with given cache contents (configuration fields as
`Encoder::new(EncoderOptions::default())` produces them). -/
def mkAbEncoder (L : List (String × List String)) (T : List (String × String)) :
    Encoder :=
  { defaultEncoder with
    cache := some { size := 200000, cache_enc := L, cache_term := T
                    cache_enc_length := 128, cache_term_length := 128 } }

theorem mem_insertSorted {x a : Nat} {l : List Nat} :
    a ∈ insertSorted x l ↔ a = x ∨ a ∈ l := by
  induction l with
  | nil => simp [insertSorted]
  | cons y ys ih =>
    simp only [insertSorted]
    by_cases h : x ≤ y
    · simp [h]
    · simp [h, ih]
      tauto

theorem mem_sortNat {a : Nat} {l : List Nat} : a ∈ sortNat l ↔ a ∈ l := by
  induction l with
  | nil => simp [sortNat]
  | cons x xs ih => simp [sortNat, mem_insertSorted, ih]

theorem totalCount_eq_count_flatten (arrays : List (List Nat)) (id : Nat) :
    totalCount arrays id = arrays.flatten.count id := by
  induction arrays with
  | nil => simp [totalCount]
  | cons a rest ih =>
    simp [totalCount, List.count_append] at *
    omega

/-- **C1, counterexample.**  The claim states that `intersect` retains a DocId
iff it appears in every input sub-array, with occurrences counted at most once
per input.  On the input `[[3,3],[1]]` the id `3` occurs twice inside the
first sub-array, reaches the retention threshold `2`, and is retained by
`intersect/core.rs` even though it does not appear in the second sub-array;
the `intersect/mod.rs` variant shares the flaw (its per-id counter also counts
within-array duplicates, `[[3,3],[1,2]]` retains `3`). -/
theorem C1_intersect_counterexample :
    (coreIntersect [[3, 3], [1]] = [[3]] ∧ (3 : Nat) ∉ ([1] : List Nat)) ∧
    (intersectMod [[3, 3], [1, 2]] 9 0 0 false 0 true = [3] ∧
      (3 : Nat) ∉ ([1, 2] : List Nat)) := by
  refine ⟨⟨rfl, by decide⟩, ⟨rfl, by decide⟩⟩

/-- **C1, amended.**  For every non-empty list of input sub-arrays, the
set-algebra `intersect` of `intersect/core.rs` retains a DocId in its output
iff the total number of occurrences of that DocId across all inputs —
counting multiplicity inside each sub-array — is at least the number of
inputs.  (In particular a DocId duplicated inside one sub-array can reach the
threshold while being absent from another input.) -/
theorem C1_intersect_retained_iff_totalCount (arrays : List (List Nat)) (id : Nat)
    (h : arrays ≠ []) :
    id ∈ (coreIntersect arrays).flatten ↔ arrays.length ≤ totalCount arrays id := by
  rw [totalCount_eq_count_flatten]
  unfold coreIntersect
  rcases arrays with _ | ⟨a, rest⟩
  · exact absurd rfl h
  rcases rest with _ | ⟨b, rest'⟩
  · simp [List.count_pos_iff]
  · have hlen : ((a :: b :: rest').length == 1) = false := by
      simp [List.length_cons]
    simp only [List.isEmpty_cons, hlen, Bool.false_eq_true, if_false, List.flatten,
      List.append_nil, mem_sortNat, List.mem_filter, List.mem_dedup,
      totalCount_eq_count_flatten, decide_eq_true_eq]
    constructor
    · rintro ⟨-, hc⟩
      exact hc
    · intro hc
      have hpos : 0 < List.count id (a ++ (b ++ rest'.flatten)) := by
        have hl : 0 < (a :: b :: rest').length := by simp
        omega
      refine ⟨?_, hc⟩
      have := List.count_pos_iff.mp hpos
      simpa using this

/-- Witness for `C1_intersect_retained_iff_totalCount` at the concrete input
`[[1,2],[2,3]]`, `id = 2`. -/
theorem C1_intersect_retained_iff_totalCount_witness :
    (2 : Nat) ∈ (coreIntersect [[1, 2], [2, 3]]).flatten ↔
      ([[1, 2], [2, 3]] : List (List Nat)).length ≤ totalCount [[1, 2], [2, 3]] 2 :=
  C1_intersect_retained_iff_totalCount [[1, 2], [2, 3]] 2 (by decide)

/-! ### C5: the resolution-bucket function -/

set_option maxRecDepth 4000

/-- **C5, counterexample.**  Three instances refute the claim as stated.
(i) The last branch is evaluated in `f64`, not exactly: at `R = 5`,
`length = 148`, `term_length = 48`, `i = 147` (so `total_length = 196`)
the code rounds the product to `3 - 2^-51`, the sum to
`4 - 2^-51 = 3.9999999999999996`, and the cast truncates to `3`, while the
claimed exact floor is `4`.  (ii) The claimed range `[0, R)` fails for the
code even with `R ≥ 1`, `i < length` and `x ≤ term_length`: at `R = 9`,
`length = 2^60`, `i = 2^60 - 1` the conversion of `i` rounds up to `2^60`
and the final value is exactly `9 = R`.  (iii) The range also fails
degenerately at `R = 0`, where `[0, 0)` is empty but the function returns
`0`. -/
theorem C5_get_score_counterexample :
    (get_score 5 148 147 (some 48) none = 3 ∧
      get_score_claimed 5 148 147 (some 48) none = 4) ∧
    (2 ^ 60 - 1 < 2 ^ 60 ∧ ¬ get_score 9 (2 ^ 60) (2 ^ 60 - 1) none none < 9) ∧
    (get_score 0 1 0 (some 0) (some 0) = 0 ∧
      ¬ get_score 0 1 0 (some 0) (some 0) < 0) := by decide

/-- **C5, amended.**  For every resolution `R`, length, position `i`, term
length and offset `x` (both defaulting to 0 when absent): the code's
bucket is `0` when `i = 0` or `R ≤ 1`, and `i + x` when
`length + term_length ≤ R`, exactly as claimed.  The claim's remaining
clauses hold of its own formula read in exact arithmetic
(`get_score_claimed`), not of the code: in the last branch that formula
equals `⌊(R-1)/(length+term_length) · (i+x) + 1⌋`, and whenever `R ≥ 1`,
`i < length` and `x ≤ term_length` it lies in `[0, R)`.  The code's `f64`
evaluation of the same expression departs from it in both respects (see
the counterexample). -/
theorem C5_get_score_spec (R length i : Nat) (tl x : Option Nat) :
    (i = 0 ∨ R ≤ 1 → get_score R length i tl x = 0) ∧
    (¬(i = 0 ∨ R ≤ 1) → length + tl.getD 0 ≤ R →
      get_score R length i tl x = i + x.getD 0) ∧
    (¬(i = 0 ∨ R ≤ 1) → R < length + tl.getD 0 →
      (get_score_claimed R length i tl x : ℤ) =
        ⌊(((R : ℚ) - 1) / ((length + tl.getD 0 : ℕ) : ℚ))
          * ((i + x.getD 0 : ℕ) : ℚ) + 1⌋) ∧
    (1 ≤ R → i < length → x.getD 0 ≤ tl.getD 0 →
      get_score_claimed R length i tl x < R) := by
  refine ⟨?_, ?_, ?_, ?_⟩
  · intro h
    simp [get_score, h]
  · intro h hle
    simp [get_score, h, hle]
  · intro h hgt
    have hR2 : 2 ≤ R := by
      rcases not_or.mp h with ⟨-, h2⟩
      omega
    have hT0 : 0 < length + tl.getD 0 := by omega
    have hnotle : ¬(length + tl.getD 0 ≤ R) := by omega
    simp only [get_score_claimed, h, if_false, hnotle]
    rw [eq_comm]
    set T := length + tl.getD 0 with hT
    set o := x.getD 0 with ho
    set m := (R - 1) * (i + o) with hm
    have hq : (((R : ℚ) - 1) / (T : ℚ)) * ((i + o : ℕ) : ℚ) + 1
        = (m : ℚ) / (T : ℚ) + 1 := by
      have h1 : ((R : ℚ) - 1) = ((R - 1 : ℕ) : ℚ) := by
        rw [Nat.cast_sub (by omega)]
        norm_num
      rw [h1, hm]
      push_cast
      ring
    rw [hq, Int.floor_eq_iff]
    constructor
    · simp only [Int.cast_add, Int.cast_one, Int.cast_natCast, Nat.cast_add, Nat.cast_one]
      have hle' : ((m / T : ℕ) : ℚ) ≤ (m : ℚ) / (T : ℚ) := Nat.cast_div_le
      linarith
    · simp only [Int.cast_add, Int.cast_one, Int.cast_natCast, Nat.cast_add, Nat.cast_one]
      have hub : (m : ℚ) / (T : ℚ) < ((m / T : ℕ) : ℚ) + 1 := by
        rw [div_lt_iff₀ (by exact_mod_cast hT0)]
        have hnat : m < (m / T) * T + T := Nat.lt_div_mul_add hT0
        calc (m : ℚ) < (((m / T) * T + T : ℕ) : ℚ) := by exact_mod_cast hnat
          _ = (((m / T : ℕ) : ℚ) + 1) * (T : ℚ) := by push_cast; ring
      linarith
  · intro hR1 hil hox
    simp only [get_score_claimed]
    split_ifs with h1 h2
    · omega
    · omega
    · have hT0 : 0 < length + tl.getD 0 := by omega
      have hR2 : 2 ≤ R := by
        rcases not_or.mp h1 with ⟨-, hb⟩
        omega
      have hio : i + x.getD 0 < length + tl.getD 0 := by omega
      have hdiv : (R - 1) * (i + x.getD 0) / (length + tl.getD 0) < R - 1 := by
        rw [Nat.div_lt_iff_lt_mul hT0]
        exact Nat.mul_lt_mul_of_pos_left hio (by omega)
      omega

/-- Witness for `C5_get_score_spec`: the code clauses at the source's own
test point `get_score(9, 10, 0, Some(5), None)` and at
`get_score(9, 2, 1, Some(5), None)`; the claimed-formula clauses at
`get_score(9, 10, 5, Some(5), None)` (bucket 3). -/
theorem C5_get_score_spec_witness :
    get_score 9 10 0 (some 5) none = 0 ∧
    get_score 9 2 1 (some 5) none = 1 + (none : Option Nat).getD 0 ∧
    ((get_score_claimed 9 10 5 (some 5) none : ℤ) =
      ⌊(((9 : ℚ) - 1) / ((10 + (some 5 : Option Nat).getD 0 : ℕ) : ℚ))
        * ((5 + (none : Option Nat).getD 0 : ℕ) : ℚ) + 1⌋) ∧
    get_score_claimed 9 10 5 (some 5) none < 9 := by
  have h0 := C5_get_score_spec 9 10 0 (some 5) none
  have h1 := C5_get_score_spec 9 2 1 (some 5) none
  have h := C5_get_score_spec 9 10 5 (some 5) none
  exact ⟨h0.1 (Or.inl rfl), h1.2.1 (by decide) (by decide),
    h.2.2.1 (by decide) (by decide), h.2.2.2 (by decide) (by decide) (by decide)⟩

/-! ### Shared construction facts -/

theorem Encoder_new_defaults : Encoder.new EncoderOptions.defaults = .ok defaultEncoder := by
  rfl

theorem Index_new_defaults : Index.new IndexOptions.defaults = .ok emptyTestIndex := by
  rfl

/-! ### C2: serialization round-trip -/

/-- **C2.**  The claim asserts `import(export(I)) ≡ I` for search purposes
for every index, including `depth > 0` with a populated context index.  The
code violates it: `export_context_index` replaces every context keyword
(stored only as a hash) with the synthetic key `"ctx_N"` and
`get_ctx_key_string` is unimplemented, so after import the context posting
lists sit under `hash("ctx_N")` and are unreachable by queries.  Concretely:
an index with `depth = 2` after `add(1, "hello world")` answers the context
query `"hello world"` with `[1]`, while the import of its export answers
`[]`. -/
theorem C2_roundtrip_loses_context : c2Pipeline = .ok ([1], []) := by rfl

/-! ### C3: duplicate suppression in `push_index` -/

/-- **C3, counterexample.**  The claim says a present DocId is suppressed
when `append = false` and permitted when `append = true`.  The code has the
polarity inverted (`if !append || !doc_ids_vec.contains(&id)`): with the
posting list of `"hello"` already holding 1, `append = false` pushes a
duplicate and `append = true` suppresses it. -/
theorem C3_append_flag_counterexample :
    mainPosting (pushIndex c3Index [] "hello" 0 1 false none).1 "hello" = [1, 1] ∧
    mainPosting (pushIndex c3Index [] "hello" 0 1 true none).1 "hello" = [1] := by
  constructor <;> rfl

theorem alGet_alModify_self {K V : Type} [DecidableEq K] (l : List (K × V))
    (k : K) (d : V) (f : V → V) :
    alGet (alModify l k d f) k = some (f ((alGet l k).getD d)) := by
  induction l with
  | nil => simp [alModify, alGet]
  | cons p rest ih =>
    obtain ⟨k', v⟩ := p
    by_cases h : k' = k
    · subst h
      simp [alModify, alGet]
    · simp [alModify, alGet, h, ih]

theorem mainPosting_eq (idx : Index) (term : String) :
    mainPosting idx term =
      (alGet ((alGet idx.map (keystoreHashStr term)).getD []) term).getD [] := by
  unfold mainPosting
  cases h : alGet idx.map (keystoreHashStr term) <;> simp [h, alGet]

/-- **C3, amended.**  When a term is not suppressed by the per-call `dupes`
map, `push_index` with `append = false` appends the DocId to the (term)
posting list unconditionally — a DocId already present gains a duplicate —
while with `append = true` an already-present DocId is suppressed (the
polarity is the opposite of the claim). -/
theorem C3_append_semantics (idx : Index) (dupes : List String) (term : String)
    (score id : Nat) (h : dupes.contains term = false) :
    mainPosting (pushIndex idx dupes term score id false none).1 term
      = mainPosting idx term ++ [id] ∧
    mainPosting (pushIndex idx dupes term score id true none).1 term
      = (if id ∈ mainPosting idx term then mainPosting idx term
         else mainPosting idx term ++ [id]) := by
  have key : ∀ append : Bool,
      mainPosting (pushIndex idx dupes term score id append none).1 term
        = condPush append id (mainPosting idx term) := by
    intro append
    unfold pushIndex
    simp only [h, Option.isSome_none, Bool.not_false, Bool.false_and, Bool.or_false,
      Bool.true_or, if_true]
    split
    · rw [mainPosting_eq]
      simp only [mainPosting_eq]
      simp [alGet_alModify_self]
    · rw [mainPosting_eq]
      simp only [mainPosting_eq]
      simp [alGet_alModify_self]
  refine ⟨?_, ?_⟩
  · rw [key false]
    simp [condPush]
  · rw [key true]
    by_cases hm : id ∈ mainPosting idx term
    · simp [condPush, hm]
    · simp [condPush, hm]

/-- Witness for `C3_append_semantics` at the concrete index holding
posting list `[1]` for `"hello"`. -/
theorem C3_append_semantics_witness :
    mainPosting (pushIndex c3Index [] "hello" 0 1 false none).1 "hello"
      = mainPosting c3Index "hello" ++ [1] ∧
    mainPosting (pushIndex c3Index [] "hello" 0 1 true none).1 "hello"
      = (if 1 ∈ mainPosting c3Index "hello" then mainPosting c3Index "hello"
         else mainPosting c3Index "hello" ++ [1]) :=
  C3_append_semantics c3Index [] "hello" 0 1 (by rfl)

/-! ### C4: rejection of id 0 and empty text -/

/-- **C4.**  `Index::add(0, t, append)` and `Index::add(id, "", append)`
return `Ok` immediately (`add_document` line 12), leaving the index — its
posting lists, context lists and register — unchanged, and `contains(0)`
stays `false`. -/
theorem C4_add_rejects_zero_and_empty (idx : Index) (t : String) (id : Nat)
    (append : Bool) (h0 : idx.contains 0 = false) :
    Index.add idx 0 t append = .ok idx ∧
    Index.add idx id "" append = .ok idx ∧
    (∀ idx', Index.add idx 0 t append = .ok idx' → idx'.contains 0 = false) := by
  refine ⟨?_, ?_, ?_⟩
  · simp [Index.add, addDocument]
  · simp [Index.add, addDocument]
  · intro idx' hadd
    simp [Index.add, addDocument] at hadd
    rw [← hadd]
    exact h0

/-- Witness for `C4_add_rejects_zero_and_empty` at the empty default
index. -/
theorem C4_add_rejects_zero_and_empty_witness :
    Index.add emptyTestIndex 0 "hello" false = .ok emptyTestIndex ∧
    Index.add emptyTestIndex 5 "" false = .ok emptyTestIndex ∧
    (∀ idx', Index.add emptyTestIndex 0 "hello" false = .ok idx' →
      idx'.contains 0 = false) :=
  C4_add_rejects_zero_and_empty emptyTestIndex "hello" 5 false (by rfl)

/-! ### C8: negative array index in field paths -/

/-- **C8.**  The claim says extracting `"f[-k]"` from a record whose field
`f` holds an array of length `n` returns the element at position `n - k`.
The code disagrees twice: `extract_value` ignores the base-field name of an
indexed segment and requires the *current* node itself to be an array, so on
the record `{"f": ["A","B"]}` the path `"f[-1]"` yields `None`; and even on
a bare array the position is `len.saturating_sub(k + 1) = n - k - 1`, so
`[-1]` selects `"A"`, not the last element.  The crate's own test
`test_extract_value_negative_index` expects `"B"`. -/
theorem C8_negative_index_mismatch :
    parse_tree "f[-1]" = [TreePath.negativeIndex 1 "f"] ∧
    extract_value c8Doc (parse_tree "f[-1]") = none ∧
    extract_value (Json.arr [.str "A", .str "B"]) [TreePath.negativeIndex 1 "f"]
      = some "A" := by
  refine ⟨?_, ?_, ?_⟩ <;> rfl

/-! ### C9: totality of `add` under `Full` tokenization -/

/-- **C9.**  The claim asserts `Index::add` never panics.  With `Full`
tokenization the partial-token loops slice the term by byte positions
(`&term[x..y]`, `index/builder.rs` line 55), so a multi-byte term panics on
the first non-boundary cut: adding `"中文字"` (nine bytes, three chars)
reaches `&term[0..8]` and aborts. -/
theorem C9_full_tokenize_panics : c9Pipeline = .ok (.error RustPanic.slice) := by
  rfl

/-! ### C6: invalid replacer regex at construction -/

/-- **C6, counterexample.**  The claim says an invalid replacer pattern
makes `Encoder::new` return `ConfigError` and construction never silently
substitutes another pattern.  In the code the validator checks only sizes,
and `Encoder::new` catches the compile failure with `unwrap_or_else`,
substituting the *empty* regex: with pattern `"("` construction succeeds
and stores `""`. -/
theorem C6_invalid_regex_accepted :
    regexValid "(" = false ∧
    Encoder.new c6Opts
      = .ok { defaultEncoder with replacer := some [(⟨""⟩, "x")] } := by
  constructor
  · decide
  · rfl

/-- **C6, amended.**  `Encoder::new` returns an error only through the
size/length checks of `EncoderValidator::validate`; whenever those pass,
construction succeeds regardless of replacer-pattern validity, and every
uncompilable pattern is silently replaced by the empty regex. -/
theorem C6_construction_ignores_regex_validity (o : EncoderOptions)
    (h : EncoderValidator.validate o = .ok ()) :
    ∃ e, Encoder.new o = .ok e ∧
      e.replacer = o.replacer.map (fun l => l.map (fun pr =>
        (match regexNew pr.1 with
         | some r => r
         | none => (⟨""⟩ : MRegex), pr.2))) := by
  unfold Encoder.new
  rw [h]
  exact ⟨_, rfl, rfl⟩

/-- Witness for `C6_construction_ignores_regex_validity` at the options
carrying the invalid pattern `"("`. -/
theorem C6_construction_ignores_regex_validity_witness :
    ∃ e, Encoder.new c6Opts = .ok e ∧
      e.replacer = c6Opts.replacer.map (fun l => l.map (fun pr =>
        (match regexNew pr.1 with
         | some r => r
         | none => (⟨""⟩ : MRegex), pr.2))) :=
  C6_construction_ignores_regex_validity c6Opts (by rfl)

/-! ### C10: tokenize-mode parsing -/

theorem parseTokenizeMode_ne_bidirectional (s : Option String) :
    parseTokenizeMode s ≠ .Bidirectional := by
  cases s with
  | none => simp [parseTokenizeMode]
  | some s =>
    simp only [parseTokenizeMode]
    split_ifs <;> simp

theorem parseTokenizeMode_fallback (s : Option String)
    (h : s ∉ ([some "strict", some "forward", some "reverse", some "full"] :
      List (Option String))) :
    parseTokenizeMode s = .Strict := by
  cases s with
  | none => simp [parseTokenizeMode]
  | some s =>
    simp only [List.mem_cons, List.not_mem_nil, or_false, Option.some.injEq] at h
    push_neg at h
    obtain ⟨h1, h2, h3, h4⟩ := h
    simp [parseTokenizeMode, h1, h2, h3, h4]

/-- **C10.**  For every `IndexOptions`, a successfully constructed index has
`tokenize = Strict` whenever `tokenize_mode` is not one of the four
recognised strings — in particular for `"bidirectional"` and for the absent
case — and no `tokenize_mode` value ever yields `Bidirectional`. -/
theorem C10_tokenize_mode_fallback (o : IndexOptions) (idx : Index)
    (h : Index.new o = .ok idx) :
    (o.tokenize_mode ∉ ([some "strict", some "forward", some "reverse", some "full"] :
        List (Option String)) → idx.tokenize = .Strict) ∧
    idx.tokenize ≠ .Bidirectional := by
  have htok : idx.tokenize = parseTokenizeMode o.tokenize_mode := by
    unfold Index.new at h
    cases henc : Encoder.new (o.encoder.getD EncoderOptions.defaults) with
    | ok e =>
      rw [henc] at h
      simp only [bind, Except.bind, pure, Except.pure, Except.ok.injEq] at h
      rw [← h]
    | error err =>
      rw [henc] at h
      simp [bind, Except.bind] at h
  constructor
  · intro hmem
    rw [htok]
    exact parseTokenizeMode_fallback _ hmem
  · rw [htok]
    exact parseTokenizeMode_ne_bidirectional _

/-- Witness for `C10_tokenize_mode_fallback` at
`tokenize_mode = Some("bidirectional")`. -/
theorem C10_tokenize_mode_fallback_witness :
    emptyTestIndex.tokenize = .Strict ∧ emptyTestIndex.tokenize ≠ .Bidirectional := by
  have h := C10_tokenize_mode_fallback
    { IndexOptions.defaults with tokenize_mode := some "bidirectional" }
    emptyTestIndex (by rfl)
  exact ⟨h.1 (by decide), h.2⟩

/-! ### C7: the encoder caches are not capacity-bounded

`Encoder::new` records `size: 200_000` but creates both caches with
`LruCache::unbounded()`, and `encode` `put`s without ever evicting.  The
lemmas below drive 200 001 `encode` calls with distinct 18-character
`{'a','b'}` inputs through a fresh default encoder and count the entries. -/

theorem flatMap_nfkdChar (cs : List Char) : cs.flatMap nfkdChar = cs := by
  induction cs with
  | nil => rfl
  | cons c rest ih => simp [nfkdChar, ih]

theorem applyNormalize_ab (e : Encoder) (he : e.normalize = true) (s : String)
    (hab : ∀ c ∈ s.data, c = 'a' ∨ c = 'b') : applyNormalize e s = s := by
  obtain ⟨d⟩ := s
  simp only [String.data] at hab
  unfold applyNormalize
  rw [he, if_pos rfl]
  simp only [String.data]
  rw [flatMap_nfkdChar]
  have hfilter : d.filter (fun c => !isCombiningMark c) = d := by
    apply List.filter_eq_self.mpr
    intro c hc
    rcases hab c hc with h | h <;> subst h <;> decide
  rw [hfilter]
  have hmap : d.map lowerChar = d := by
    conv_rhs => rw [← List.map_id d]
    apply List.map_congr_left
    intro c hc
    rcases hab c hc with h | h <;> subst h <;> decide
  rw [hmap]

theorem replacePrev_noDigit_aux :
    ∀ (n : Nat) (cs : List Char), cs.length ≤ n → (∀ c ∈ cs, isD c = false) →
      replacePrev cs = cs := by
  intro n
  induction n with
  | zero =>
    intro cs hl h
    cases cs with
    | nil => rfl
    | cons c rest => simp at hl
  | succ n ih =>
    intro cs hl h
    match cs with
    | [] => rfl
    | [c] => rfl
    | [c, d] => rfl
    | [c, d, e] => rfl
    | c :: d1 :: d2 :: d3 :: rest =>
      have hd1 : isD d1 = false := h d1 (by simp)
      simp only [replacePrev, hd1, Bool.and_false, Bool.false_and, Bool.false_eq_true,
        if_false, List.cons.injEq, true_and]
      exact ih (d1 :: d2 :: d3 :: rest)
        (by simp at hl ⊢; omega)
        (fun a ha => h a (by simp only [List.mem_cons] at ha ⊢; tauto))

theorem replacePrev_noDigit (cs : List Char) (h : ∀ c ∈ cs, isD c = false) :
    replacePrev cs = cs :=
  replacePrev_noDigit_aux cs.length cs le_rfl h

theorem replaceNext_noDigit_aux :
    ∀ (n : Nat) (cs : List Char), cs.length ≤ n → (∀ c ∈ cs, isD c = false) →
      replaceNext cs = cs := by
  intro n
  induction n with
  | zero =>
    intro cs hl h
    cases cs with
    | nil => rfl
    | cons c rest => simp at hl
  | succ n ih =>
    intro cs hl h
    match cs with
    | [] => rfl
    | [c] => rfl
    | [c, d] => rfl
    | [c, d, e] => rfl
    | d1 :: d2 :: d3 :: c :: rest =>
      have hd1 : isD d1 = false := h d1 (by simp)
      simp only [replaceNext, hd1, Bool.and_false, Bool.false_and, Bool.false_eq_true,
        if_false, List.cons.injEq, true_and]
      exact ih (d2 :: d3 :: c :: rest)
        (by simp at hl ⊢; omega)
        (fun a ha => h a (by simp only [List.mem_cons] at ha ⊢; tauto))

theorem replaceNext_noDigit (cs : List Char) (h : ∀ c ∈ cs, isD c = false) :
    replaceNext cs = cs :=
  replaceNext_noDigit_aux cs.length cs le_rfl h

theorem replaceLen_noDigit_aux :
    ∀ (n : Nat) (cs : List Char), cs.length ≤ n → (∀ c ∈ cs, isD c = false) →
      replaceLen cs = cs := by
  intro n
  induction n with
  | zero =>
    intro cs hl h
    cases cs with
    | nil => rfl
    | cons c rest => simp at hl
  | succ n ih =>
    intro cs hl h
    match cs with
    | [] => rfl
    | [c] => rfl
    | [c, d] => rfl
    | d1 :: d2 :: d3 :: rest =>
      have hd1 : isD d1 = false := h d1 (by simp)
      simp only [replaceLen, hd1, Bool.and_false, Bool.false_and, Bool.false_eq_true,
        if_false, List.cons.injEq, true_and]
      exact ih (d2 :: d3 :: rest)
        (by simp at hl ⊢; omega)
        (fun a ha => h a (by simp only [List.mem_cons] at ha ⊢; tauto))

theorem replaceLen_noDigit (cs : List Char) (h : ∀ c ∈ cs, isD c = false) :
    replaceLen cs = cs :=
  replaceLen_noDigit_aux cs.length cs le_rfl h

theorem numericSplit_ab (s : String) (hab : ∀ c ∈ s.data, c = 'a' ∨ c = 'b') :
    numericSplit s = s := by
  obtain ⟨d⟩ := s
  simp only [String.data] at hab
  have hnd : ∀ c ∈ d, isD c = false := by
    intro c hc
    rcases hab c hc with h | h <;> subst h <;> decide
  unfold numericSplit
  simp only [String.data]
  rw [replacePrev_noDigit d hnd, replaceNext_noDigit d hnd, replaceLen_noDigit d hnd]

theorem splitWs_allWord (cs : List Char) (h : ∀ c ∈ cs, isWordChar c = true)
    (hne : cs ≠ []) : splitWs cs = [cs] := by
  induction cs with
  | nil => exact absurd rfl hne
  | cons c rest ih =>
    have hc : isWordChar c = true := h c (by simp)
    by_cases hr : rest = []
    · subst hr
      simp [splitWs, hc]
    · have hrec := ih (fun a ha => h a (by simp [ha])) hr
      simp [splitWs, hrec, hc]

theorem cachePeek_cons {α : Type} (k : String) (v : α) (L : List (String × α))
    (s : String) :
    cachePeek ((k, v) :: L) s = if k = s then some v else cachePeek L s := rfl

theorem cachePut_fresh {α : Type} (L : List (String × α)) (s : String) (v : α)
    (h : cachePeek L s = none) : cachePut L s v = (s, v) :: L := by
  unfold cachePut
  congr 1
  induction L with
  | nil => rfl
  | cons p rest ih =>
    rw [cachePeek_cons] at h
    by_cases hp : p.1 = s
    · rw [if_pos hp] at h
      exact absurd h (by simp)
    · rw [if_neg hp] at h
      simp only [List.filter_cons]
      rw [if_pos (by simpa using hp)]
      rw [ih h]

/-- A single `encode` of a fresh short `{'a','b'}` input on the default
configuration returns the input as its one token and prepends one entry to
the full-input cache. -/
theorem encode_fresh_ab (L : List (String × List String))
    (T : List (String × String)) (s : String)
    (hab : ∀ c ∈ s.data, c = 'a' ∨ c = 'b')
    (hlen : 3 < byteLen s) (hle : byteLen s ≤ 128)
    (hmiss : cachePeek L s = none) :
    Encoder.encode (mkAbEncoder L T) s = ([s], mkAbEncoder ((s, [s]) :: L) T) := by
  have hne : s.data ≠ [] := by
    intro hd
    rw [byteLen, hd] at hlen
    simp at hlen
  have hsne : s ≠ "" := by
    intro hs
    rw [hs] at hne
    exact hne rfl
  unfold Encoder.encode
  simp only [mkAbEncoder, defaultEncoder]
  rw [if_pos hle, hmiss]
  dsimp only []
  have hnorm : applyNormalize (mkAbEncoder L T) s = s :=
    applyNormalize_ab _ rfl s hab
  simp only [mkAbEncoder, defaultEncoder] at hnorm
  have hnum : numericSplit s = s := numericSplit_ab s hab
  have hsplit : applySplit (mkAbEncoder L T) s = [s] := by
    unfold applySplit
    simp only [mkAbEncoder, defaultEncoder]
    have hword : ∀ c ∈ s.data, isWordChar c = true := by
      intro c hc
      rcases hab c hc with h | h <;> subst h <;> decide
    rw [splitWs_allWord s.data hword hne]
    simp
  simp only [mkAbEncoder, defaultEncoder] at hsplit
  have hword1 : encodeWord (mkAbEncoder L T) true
      { final_terms := [], dupes := [], last_term := "", last_term_enc := ""
        cache_term := T } s
      = { final_terms := [s], dupes := [s], last_term := "", last_term_enc := ""
          cache_term := T } := by
    unfold encodeWord
    rw [if_neg hsne]
    rw [if_neg (by simp only [mkAbEncoder, defaultEncoder]; simp; omega)]
    simp [mkAbEncoder, defaultEncoder]
  simp only [mkAbEncoder, defaultEncoder] at hword1
  simp only [hnorm, decide_eq_true hlen, Bool.true_and, if_true, hnum, hsplit,
    hasTransformations, Option.isSome_none, Bool.or_self, Bool.or_false,
    Bool.not_false, List.foldl, hword1, decide_eq_true hle]
  rw [cachePut_fresh L s [s] hmiss]
  rw [if_pos hle]

/-- Folding fresh distinct `{'a','b'}` inputs through `encode` grows the
full-input cache by exactly one entry per input. -/
theorem encodeFold_ab (inputs : List String) (L : List (String × List String))
    (T : List (String × String))
    (h1 : ∀ s ∈ inputs, (∀ c ∈ s.data, c = 'a' ∨ c = 'b') ∧
      3 < byteLen s ∧ byteLen s ≤ 128)
    (h2 : inputs.Nodup)
    (h3 : ∀ s ∈ inputs, cachePeek L s = none) :
    cacheEncLen (encodeFold (mkAbEncoder L T) inputs)
      = inputs.length + L.length := by
  induction inputs generalizing L with
  | nil => simp [encodeFold, cacheEncLen, mkAbEncoder]
  | cons s rest ih =>
    obtain ⟨hab, hlen, hle⟩ := h1 s (by simp)
    have hmiss := h3 s (by simp)
    have hstep := encode_fresh_ab L T s hab hlen hle hmiss
    unfold encodeFold
    simp only [List.foldl]
    rw [hstep]
    have hres := ih ((s, [s]) :: L)
      (fun t ht => h1 t (by simp [ht]))
      h2.of_cons
      (fun t ht => by
        rw [cachePeek_cons]
        rw [if_neg ?_]
        · exact h3 t (by simp [ht])
        · intro he
          subst he
          exact (List.nodup_cons.mp h2).1 ht)
    unfold encodeFold at hres
    rw [hres]
    simp [List.length]
    omega

theorem byteLen_mkKey (i : Nat) : byteLen (mkKey i) = 18 := by
  unfold byteLen mkKey
  simp only [String.data, List.map_map]
  have h : ∀ k ∈ List.range 18,
      (Char.utf8Size ∘ fun k => if i.testBit k then 'b' else 'a') k = 1 := by
    intro k _
    by_cases hb : i.testBit k <;> simp only [Function.comp, hb, if_true, if_false] <;> decide
  rw [List.map_congr_left h]
  simp

theorem mkKey_ab (i : Nat) : ∀ c ∈ (mkKey i).data, c = 'a' ∨ c = 'b' := by
  intro c hc
  simp only [mkKey, String.data, List.mem_map, List.mem_range] at hc
  obtain ⟨k, -, hk⟩ := hc
  by_cases hb : i.testBit k
  · right
    rw [← hk]
    simp [hb]
  · left
    rw [← hk]
    simp [hb]

theorem mkKey_inj {i j : Nat} (hi : i < 2 ^ 18) (hj : j < 2 ^ 18)
    (h : mkKey i = mkKey j) : i = j := by
  apply Nat.eq_of_testBit_eq
  intro k
  by_cases hk : k < 18
  · have hdata : ((List.range 18).map (fun k => if i.testBit k then 'b' else 'a'))
        = ((List.range 18).map (fun k => if j.testBit k then 'b' else 'a')) := by
      have := congrArg String.data h
      simpa [mkKey] using this
    have hgk : (if i.testBit k then 'b' else 'a') = (if j.testBit k then 'b' else 'a') := by
      have h1 := congrArg (fun l => l.getD k 'a') hdata
      simpa [List.getD, List.getElem?_map, List.getElem?_range, hk] using h1
    by_cases hbi : i.testBit k <;> by_cases hbj : j.testBit k <;>
      simp [hbi, hbj] at hgk ⊢
  · have h18 : (2 : Nat) ^ 18 ≤ 2 ^ k := Nat.pow_le_pow_right (by omega) (by omega)
    rw [Nat.testBit_eq_false_of_lt (by omega), Nat.testBit_eq_false_of_lt (by omega)]

theorem mkKeys_nodup (n : Nat) (hn : n ≤ 2 ^ 18) : (mkKeys n).Nodup := by
  apply List.Nodup.map_on ?_ (List.nodup_range n)
  intro a ha b hb hab
  rw [List.mem_range] at ha hb
  exact mkKey_inj (by omega) (by omega) hab

theorem mkKeys_big_admissible : ∀ s ∈ mkKeys 200001,
    (∀ c ∈ s.data, c = 'a' ∨ c = 'b') ∧ 3 < byteLen s ∧ byteLen s ≤ 128 := by
  intro s hs
  simp only [mkKeys, List.mem_map] at hs
  obtain ⟨i, -, hi⟩ := hs
  subst hi
  exact ⟨mkKey_ab i, by rw [byteLen_mkKey]; omega, by rw [byteLen_mkKey]; omega⟩

theorem mkKeys_big_nodup : (mkKeys 200001).Nodup :=
  mkKeys_nodup 200001 (by norm_num)

theorem mkKeys_big_fresh :
    ∀ s ∈ mkKeys 200001, cachePeek ([] : List (String × List String)) s = none :=
  fun _ _ => rfl

theorem encodeFold_big :
    cacheEncLen (encodeFold defaultEncoder (mkKeys 200001))
      = (mkKeys 200001).length + ([] : List (String × List String)).length :=
  encodeFold_ab (mkKeys 200001) [] [] mkKeys_big_admissible mkKeys_big_nodup
    mkKeys_big_fresh

theorem mkKeys_big_length :
    (mkKeys 200001).length + ([] : List (String × List String)).length = 200001 := by
  rw [mkKeys, List.length_map, List.length_range, List.length_nil]

/-- **C7.**  The claim says each of the two encoder caches holds at most
200 000 entries at every point of every operation sequence.  The code
records `size: 200_000` but creates both caches with
`LruCache::unbounded()` and `encode` inserts without evicting: after
200 001 `encode` calls with distinct admissible inputs the full-input cache
holds 200 001 entries, exceeding the declared fixed capacity. -/
theorem C7_cache_capacity_exceeded :
    Encoder.new EncoderOptions.defaults = .ok defaultEncoder ∧
    cacheDeclaredSize defaultEncoder = 200000 ∧
    cacheEncLen (encodeFold defaultEncoder (mkKeys 200001)) = 200001 :=
  ⟨Encoder_new_defaults, rfl, Eq.trans encodeFold_big mkKeys_big_length⟩

end Inversearch
